import Mathlib

/-!
Shallow embedding of the mindmap / todo demo service (`app/main.py`).

Pure helpers (`_fallback_expand`, `_new_node_id`) are translated directly.
The stateful endpoints (`create_mindmap`, `expand_mindmap_node`, todo CRUD)
are translated into explicit state passing over association lists that model
Python dictionaries (insertion order preserved, assignment updates in place
when the key is present and appends otherwise).

The remote tier of `_ai_expand_idea` (the OpenAI client call together with
`json.loads` of the response content) is abstracted into a `RemoteEnv` value:
the presence of the `OPENAI_API_KEY` variable, whether the `openai` import
succeeds, and the outcome of the guarded block (an exception anywhere inside
the `try`, or a parsed JSON value).  Everything after the parse (the
`isinstance` checks, stripping, the length-3 threshold, the `[:10]` cut) is
translated from the source.
-/

namespace DemoSite

/-! ### Character and string helpers mirroring Python `str` methods -/

/-- Whitespace characters recognised by Python `str.strip()` (ASCII range). -/
def isSpaceChar (c : Char) : Bool :=
  c = ' ' || c = '\t' || c = '\n' || c = '\x0d' || c = '\x0b' || c = '\x0c'

/-- The characters stripped by `rstrip(".?!")` in `_fallback_expand`. -/
def isPunctChar (c : Char) : Bool :=
  c = '.' || c = '?' || c = '!'

/-- Python `s.strip()`: drop whitespace from both ends. -/
def pyStrip (s : String) : String :=
  ⟨List.rdropWhile isSpaceChar (s.data.dropWhile isSpaceChar)⟩

/-- Python `s.rstrip(".?!")`: drop trailing `.`, `?`, `!` characters. -/
def pyRstripPunct (s : String) : String :=
  ⟨List.rdropWhile isPunctChar s.data⟩

/-- Decimal digit character for a value below ten. -/
def digitChar : Nat → Char
  | 0 => '0' | 1 => '1' | 2 => '2' | 3 => '3' | 4 => '4'
  | 5 => '5' | 6 => '6' | 7 => '7' | 8 => '8' | _ => '9'

/-- Fuelled decimal rendering loop; `fuel ≥ n` suffices since `n / 10 < n`. -/
def natStrGo : Nat → Nat → List Char → List Char
  | 0, n, acc => digitChar (n % 10) :: acc
  | fuel + 1, n, acc =>
    let acc2 := digitChar (n % 10) :: acc
    if n / 10 = 0 then acc2 else natStrGo fuel (n / 10) acc2

/-- Decimal rendering of a natural number, as produced by a Python f-string. -/
def natStr (n : Nat) : String := ⟨natStrGo n n []⟩

/-! ### The JSON shape and the abstracted remote tier -/

/-- Parsed JSON values, as produced by `json.loads`. -/
inductive JsonValue where
  | null
  | bool (b : Bool)
  | num (n : Int)
  | str (s : String)
  | arr (items : List JsonValue)
  | obj (fields : List (String × JsonValue))

/-- Outcome of the guarded remote block: an exception anywhere inside the
`try` (network error, bad response, `json.loads` failure), or a parsed
JSON value. -/
inductive RemoteOutcome where
  | exn
  | ok (data : JsonValue)

/-- Ambient environment of one `_ai_expand_idea` call: `OPENAI_API_KEY`
as returned by `os.getenv`, whether `from openai import AsyncOpenAI`
succeeds, and the outcome of the guarded remote block. -/
structure RemoteEnv where
  apiKey : Option String
  importOk : Bool
  outcome : RemoteOutcome

/-- Translation of `_fallback_expand` from `app/main.py`. -/
def _fallback_expand (seed : String) (depth : Int) : List String :=
  let base0 := pyRstripPunct (pyStrip seed)
  let base := if base0 = "" then "Idea" else base0
  if depth ≤ 0 then
    ["What is " ++ base ++ "?",
     "Key components",
     "Examples",
     "Risks & constraints",
     "Next steps"]
  else
    ["Define",
     "Break into steps",
     "Tools / resources",
     "Measure success",
     "Common pitfalls"]

/-- Body of the per-item loop over the parsed array: keep `item.strip()`
when `item` is a string that is non-empty after stripping. -/
def extractItem : JsonValue → Option String
  | .str s => let t := pyStrip s; if t = "" then none else some t
  | _ => none

/-- Translation of `_ai_expand_idea` from `app/main.py`.  The remote call is
abstracted by `env`; every failure branch returns the fallback, exactly as
the source does. -/
def _ai_expand_idea (env : RemoteEnv) (prompt : String) (depth : Int) : List String :=
  match env.apiKey with
  | none => _fallback_expand prompt depth
  | some key =>
    if key = "" then _fallback_expand prompt depth
    else if !env.importOk then _fallback_expand prompt depth
    else
      match env.outcome with
      | .exn => _fallback_expand prompt depth
      | .ok data =>
        match data with
        | .arr items =>
          let out := items.filterMap extractItem
          if out.length < 3 then _fallback_expand prompt depth
          else out.take 10
        | _ => _fallback_expand prompt depth

/-- States of the remote tier that the source treats as failures: import
error, an exception in the guarded block, a non-array JSON value, or fewer
than three non-empty strings surviving the per-item filter. -/
def remoteTierFailed (env : RemoteEnv) : Bool :=
  !env.importOk ||
  (match env.outcome with
   | .exn => true
   | .ok (.arr items) => decide ((items.filterMap extractItem).length < 3)
   | .ok _ => true)

/-! ### Node identity scheme -/

/-- Translation of `_new_node_id` from `app/main.py`. -/
def _new_node_id (map_id : Nat) (parent_id : Option String) (idx : Nat) : String :=
  match parent_id with
  | none => "m" ++ natStr map_id ++ ":root"
  | some p => "m" ++ natStr map_id ++ ":" ++ p ++ "." ++ natStr idx

/-! ### Association lists modelling Python dictionaries -/

/-- First value stored under key `k` (Python `d[k]` / `d.get(k)`). -/
def alistLookup {κ α : Type} [DecidableEq κ] : List (κ × α) → κ → Option α
  | [], _ => none
  | p :: t, k => if p.1 = k then some p.2 else alistLookup t k

/-- Python `k in d`. -/
def hasKey {κ α : Type} [DecidableEq κ] (l : List (κ × α)) (k : κ) : Bool :=
  l.any (fun p => decide (p.1 = k))

/-- Python `d[k] = v`: update in place when the key is present (keeping its
position, as CPython dictionaries do), append otherwise. -/
def dictInsert {κ α : Type} [DecidableEq κ] (l : List (κ × α)) (k : κ) (v : α) :
    List (κ × α) :=
  if hasKey l k then l.map (fun p => if p.1 = k then (k, v) else p)
  else l ++ [(k, v)]

/-- Python `enumerate(l, start)`. -/
def enumerate1 {α : Type} : Nat → List α → List (Nat × α)
  | _, [] => []
  | i, a :: t => (i, a) :: enumerate1 (i + 1) t

/-! ### Mindmap data model and store -/

/-- The `MindmapNode` pydantic model. -/
structure MindmapNode where
  id : String
  label : String
  parent_id : Option String
  depth : Int
deriving DecidableEq, Repr

/-- One entry of the `_mindmaps` store: the dict built by `create_mindmap`
(`map_id`, `root_id`, and the insertion-ordered `nodes` dict). -/
structure Mindmap where
  map_id : Nat
  root_id : String
  nodes : List (String × MindmapNode)
deriving DecidableEq, Repr

/-- The `MindmapResponse` pydantic model. -/
structure MindmapResponse where
  map_id : Nat
  root_id : String
  nodes : List MindmapNode
deriving DecidableEq, Repr

/-- The module-level mindmap state: `_mindmaps` and `_next_map_id`. -/
structure MindmapState where
  mindmaps : List (Nat × Mindmap)
  next_map_id : Nat
deriving DecidableEq, Repr

/-- Initial module state: empty store, counter at 1. -/
def initMindmapState : MindmapState := ⟨[], 1⟩

/-- Insert a batch of nodes into a nodes dict, in order (the `for` loops of
`create_mindmap` / `expand_mindmap_node` writing `nodes[n.id] = n`). -/
def insertAll (d : List (String × MindmapNode)) (ns : List MindmapNode) :
    List (String × MindmapNode) :=
  ns.foldl (fun d n => dictInsert d n.id n) d

/-- The children loop of `create_mindmap`: one node per label generated from
the raw prompt at depth 0, with 1-based sibling indices, at depth 1 under
the root. -/
def createChildren (env : RemoteEnv) (map_id : Nat) (root_id : String)
    (prompt : String) : List MindmapNode :=
  (enumerate1 1 (_ai_expand_idea env prompt 0)).map (fun il =>
    ({ id := _new_node_id map_id (some root_id) il.1, label := il.2,
       parent_id := some root_id, depth := 1 } : MindmapNode))

/-- Translation of the `create_mindmap` handler: allocate a map id, build the
root from the stripped prompt, one child per generated label with 1-based
sibling indices, store everything, return the full node set. -/
def create_mindmap (env : RemoteEnv) (prompt : String) (s : MindmapState) :
    MindmapResponse × MindmapState :=
  let map_id := s.next_map_id
  let root_id := _new_node_id map_id none 0
  let root : MindmapNode :=
    { id := root_id, label := pyStrip prompt, parent_id := none, depth := 0 }
  let nodes := root :: createChildren env map_id root_id prompt
  let mm : Mindmap :=
    { map_id := map_id, root_id := root_id, nodes := insertAll [] nodes }
  (⟨map_id, root_id, nodes⟩,
   ⟨dictInsert s.mindmaps map_id mm, map_id + 1⟩)

/-- The `existing_children` comprehension of `expand_mindmap_node`: values of
the nodes dict whose `parent_id` equals the requested node id, in insertion
order. -/
def existingChildren (mm : Mindmap) (node_id : String) : List MindmapNode :=
  (mm.nodes.map Prod.snd).filter (fun n => decide (n.parent_id = some node_id))

/-- The `new_children` loop of `expand_mindmap_node`: one node per generated
label, with 1-based sibling indices and depth one below the parent. -/
def expandChildren (env : RemoteEnv) (map_id : Nat) (node_id : String)
    (parent : MindmapNode) : List MindmapNode :=
  (enumerate1 1 (_ai_expand_idea env parent.label parent.depth)).map (fun il =>
    ({ id := _new_node_id map_id (some node_id) il.1, label := il.2,
       parent_id := some node_id, depth := parent.depth + 1 } : MindmapNode))

/-- Translation of the `expand_mindmap_node` handler: 404 on unknown map or
node, return existing children unchanged when there are any, otherwise
generate labels, attach fresh children and return them. -/
def expand_mindmap_node (env : RemoteEnv) (map_id : Nat) (node_id : String)
    (s : MindmapState) : Except Unit (List MindmapNode) × MindmapState :=
  match alistLookup s.mindmaps map_id with
  | none => (Except.error (), s)
  | some mm =>
    match alistLookup mm.nodes node_id with
    | none => (Except.error (), s)
    | some parent =>
      if (existingChildren mm node_id).isEmpty then
        let new_children := expandChildren env map_id node_id parent
        let mm2 : Mindmap := { mm with nodes := insertAll mm.nodes new_children }
        (Except.ok new_children, ⟨dictInsert s.mindmaps map_id mm2, s.next_map_id⟩)
      else
        (Except.ok (existingChildren mm node_id), s)

/-- The mindmap-mutating HTTP operations, each carrying the ambient remote
environment seen by its `_ai_expand_idea` call. -/
inductive MOp where
  | create (env : RemoteEnv) (prompt : String)
  | expand (env : RemoteEnv) (map_id : Nat) (node_id : String)

/-- State transition of one mindmap operation. -/
def runMOp (s : MindmapState) (op : MOp) : MindmapState :=
  match op with
  | .create env prompt => (create_mindmap env prompt s).2
  | .expand env m nid => (expand_mindmap_node env m nid s).2

/-- State after a sequence of mindmap operations from the initial state. -/
def runMOps (ops : List MOp) : MindmapState :=
  ops.foldl runMOp initMindmapState

/-- Pydantic validation of `MindmapCreate.prompt`: `min_length=1`,
`max_length=2000`, counting characters. -/
def mindmapCreateValid (prompt : String) : Bool :=
  decide (1 ≤ prompt.length) && decide (prompt.length ≤ 2000)

/-! ### Todo store -/

/-- The `Todo` pydantic model, also the stored `model_dump` dict. -/
structure Todo where
  id : Nat
  title : String
  done : Bool
deriving DecidableEq, Repr

/-- The module-level todo state: `_todos` and `_next_id`. -/
structure TodoState where
  todos : List (Nat × Todo)
  next_id : Nat
deriving DecidableEq, Repr

/-- Initial todo state: empty store, counter at 1. -/
def initTodoState : TodoState := ⟨[], 1⟩

/-- Translation of the `list_todos` handler. -/
def list_todos (s : TodoState) : List Todo :=
  s.todos.map Prod.snd

/-- Translation of the `create_todo` handler. -/
def create_todo (title : String) (done : Bool) (s : TodoState) :
    Todo × TodoState :=
  let t : Todo := ⟨s.next_id, title, done⟩
  (t, ⟨dictInsert s.todos s.next_id t, s.next_id + 1⟩)

/-- Translation of the `get_todo` handler (404 encoded as `Except.error`). -/
def get_todo (todo_id : Nat) (s : TodoState) : Except Unit Todo :=
  match alistLookup s.todos todo_id with
  | none => Except.error ()
  | some t => Except.ok t

/-- Translation of the `update_todo` handler: patch only the `done` field of
the stored record. -/
def update_todo (todo_id : Nat) (done : Bool) (s : TodoState) :
    Except Unit Todo × TodoState :=
  match alistLookup s.todos todo_id with
  | none => (Except.error (), s)
  | some t =>
    let t2 : Todo := ⟨t.id, t.title, done⟩
    (Except.ok t2, ⟨dictInsert s.todos todo_id t2, s.next_id⟩)

/-- Translation of the `delete_todo` handler (`del _todos[todo_id]`). -/
def delete_todo (todo_id : Nat) (s : TodoState) :
    Except Unit Unit × TodoState :=
  match alistLookup s.todos todo_id with
  | none => (Except.error (), s)
  | some _ => (Except.ok (), ⟨s.todos.filter (fun p => !decide (p.1 = todo_id)), s.next_id⟩)

/-- All todo HTTP operations. -/
inductive TodoOp where
  | list
  | create (title : String) (done : Bool)
  | get (todo_id : Nat)
  | patch (todo_id : Nat) (done : Bool)
  | delete (todo_id : Nat)
deriving DecidableEq, Repr

/-- State transition of one todo operation. -/
def runTodoOp (s : TodoState) (op : TodoOp) : TodoState :=
  match op with
  | .list => s
  | .create title done => (create_todo title done s).2
  | .get _ => s
  | .patch i d => (update_todo i d s).2
  | .delete i => (delete_todo i s).2

/-- State after a sequence of todo operations from the initial state. -/
def runTodoOps (ops : List TodoOp) : TodoState :=
  ops.foldl runTodoOp initTodoState

/-! ### Store invariants -/

/-- Pairwise distinctness of the keys of an association list. -/
def distinctKeys {κ α : Type} [DecidableEq κ] : List (κ × α) → Bool
  | [] => true
  | p :: t => !hasKey t p.1 && distinctKeys t

/-- The key is a child id of parent `p` in map `m` with a sibling index
between 1 and 10 (no generation ever attaches more than ten children). -/
def isChildId (m : Nat) (p id : String) : Bool :=
  (List.range 10).any (fun j => decide (id = _new_node_id m (some p) (j + 1)))

/-- Local well-formedness of one stored node of map `m`: the stored key is
the node id, the depth is non-negative, and either the node is the root
(no parent, depth 0) or its parent is stored, lies one level up, and the
id follows the identity scheme under that parent. -/
def nodeOK (m : Nat) (mm : Mindmap) (kv : String × MindmapNode) : Bool :=
  decide (kv.2.id = kv.1) && decide (0 ≤ kv.2.depth) &&
  (match kv.2.parent_id with
   | none => decide (kv.1 = mm.root_id) && decide (kv.2.depth = 0)
   | some p =>
     match alistLookup mm.nodes p with
     | none => false
     | some pn => decide (kv.2.depth = pn.depth + 1) && isChildId m p kv.1)

/-- Well-formedness of one stored map. -/
def mapOK (m : Nat) (mm : Mindmap) : Bool :=
  decide (mm.map_id = m) &&
  decide (mm.root_id = _new_node_id m none 0) &&
  distinctKeys mm.nodes &&
  (match alistLookup mm.nodes mm.root_id with
   | none => false
   | some r => decide (r.parent_id = none)) &&
  mm.nodes.all (fun kv => nodeOK m mm kv)

/-- Well-formedness of the whole mindmap state. -/
def WFm (s : MindmapState) : Bool :=
  distinctKeys s.mindmaps &&
  s.mindmaps.all (fun p => decide (p.1 < s.next_map_id) && mapOK p.1 p.2)

/-- Well-formedness of the todo state. -/
def TodoWF (s : TodoState) : Bool :=
  distinctKeys s.todos &&
  s.todos.all (fun p => decide (p.1 < s.next_id) && decide (p.2.id = p.1))

/-- Follow `parent_id` links upward for a given number of steps. -/
def climb (nodes : List (String × MindmapNode)) : String → Nat → Option String
  | k, 0 => some k
  | k, j + 1 =>
    match alistLookup nodes k with
    | none => none
    | some n =>
      match n.parent_id with
      | none => none
      | some p => climb nodes p j

/-! ### Lemmas about the string helpers -/

theorem pyStrip_eq_empty_iff {s : String} :
    pyStrip s = "" ↔ ∀ c ∈ s.data, isSpaceChar c := by
  rw [String.ext_iff]
  show List.rdropWhile isSpaceChar (s.data.dropWhile isSpaceChar) = [] ↔ _
  rw [List.rdropWhile_eq_nil_iff]
  constructor
  · intro h c hc
    rw [← List.takeWhile_append_dropWhile isSpaceChar s.data] at hc
    rcases List.mem_append.1 hc with h3 | h3
    · exact List.mem_takeWhile_imp h3
    · exact h c h3
  · intro h c hc
    exact h c (List.dropWhile_sublist _ |>.subset hc)

theorem pyStrip_ne_empty {s : String} {c : Char} (hc : c ∈ s.data)
    (hsp : isSpaceChar c = false) : pyStrip s ≠ "" := by
  intro h
  have := pyStrip_eq_empty_iff.1 h c hc
  rw [hsp] at this
  exact Bool.false_ne_true this

theorem pyStrip_idem (s : String) : pyStrip (pyStrip s) = pyStrip s := by
  apply String.ext
  show List.rdropWhile isSpaceChar
      ((List.rdropWhile isSpaceChar (s.data.dropWhile isSpaceChar)).dropWhile isSpaceChar) =
    List.rdropWhile isSpaceChar (s.data.dropWhile isSpaceChar)
  have h1 : (List.rdropWhile isSpaceChar (s.data.dropWhile isSpaceChar)).dropWhile isSpaceChar
      = List.rdropWhile isSpaceChar (s.data.dropWhile isSpaceChar) := by
    rcases List.rdropWhile_prefix isSpaceChar (s.data.dropWhile isSpaceChar) with ⟨t, ht⟩
    rcases hR : List.rdropWhile isSpaceChar (s.data.dropWhile isSpaceChar) with _ | ⟨c, cs⟩
    · simp
    · rw [hR] at ht
      have hX : List.dropWhile isSpaceChar s.data = c :: (cs ++ t) := by
        rw [← ht]; rfl
      have hc := List.head?_dropWhile_not isSpaceChar s.data
      rw [hX] at hc
      simp only [List.head?_cons] at hc
      rw [List.dropWhile_cons_of_neg]
      rw [hc]
      exact Bool.false_ne_true
  rw [h1, List.rdropWhile_idempotent]

/-! ### The node identity scheme: decimal digits and id injectivity -/

theorem digitChar_ne_dot (k : Nat) : digitChar k ≠ '.' := by
  match k with
  | 0 | 1 | 2 | 3 | 4 | 5 | 6 | 7 | 8 => decide
  | n + 9 => exact (by decide : ('9' : Char) ≠ '.')

theorem natStrGo_mem {fuel n : Nat} {acc : List Char} {c : Char}
    (h : c ∈ natStrGo fuel n acc) : (∃ k, c = digitChar k) ∨ c ∈ acc := by
  induction fuel generalizing n acc with
  | zero =>
    rw [natStrGo] at h
    rcases List.mem_cons.1 h with h | h
    · exact Or.inl ⟨n % 10, h⟩
    · exact Or.inr h
  | succ fuel ih =>
    simp only [natStrGo] at h
    split at h
    · rcases List.mem_cons.1 h with h | h
      · exact Or.inl ⟨n % 10, h⟩
      · exact Or.inr h
    · rcases ih h with h | h
      · exact Or.inl h
      · rcases List.mem_cons.1 h with h | h
        · exact Or.inl ⟨n % 10, h⟩
        · exact Or.inr h

theorem natStr_no_dot (n : Nat) : '.' ∉ (natStr n).data := by
  intro h
  rcases natStrGo_mem h with ⟨k, hk⟩ | h2
  · exact digitChar_ne_dot k hk.symm
  · simp at h2

theorem natStr_inj_lt11 : ∀ i : Nat, i < 11 → ∀ j : Nat, j < 11 → natStr i = natStr j → i = j := by
  decide

theorem _new_node_id_none_data (m i : Nat) :
    (_new_node_id m none i).data
      = 'm' :: ((natStr m).data ++ ':' :: ('r' :: 'o' :: 'o' :: 't' :: [])) := by
  show (("m" ++ natStr m) ++ ":root").data = _
  rw [String.data_append, String.data_append]
  simp

theorem _new_node_id_some_data (m i : Nat) (p : String) :
    (_new_node_id m (some p) i).data
      = 'm' :: ((natStr m).data ++ ':' :: (p.data ++ '.' :: (natStr i).data)) := by
  show ((((("m" ++ natStr m) ++ ":") ++ p) ++ ".") ++ natStr i).data = _
  rw [String.data_append, String.data_append, String.data_append, String.data_append,
    String.data_append]
  simp

theorem dot_left_inj {a : List Char} : ∀ {b u v : List Char}, '.' ∉ a → '.' ∉ b →
    a ++ '.' :: u = b ++ '.' :: v → a = b ∧ u = v := by
  induction a with
  | nil =>
    intro b u v _ hb h
    cases b with
    | nil =>
      simp only [List.nil_append] at h
      injection h with _ h2
      exact ⟨rfl, h2⟩
    | cons d s =>
      simp only [List.nil_append, List.cons_append] at h
      injection h with h1 _
      exact absurd (by rw [← h1]; exact List.mem_cons_self _ _) hb
  | cons c t ih =>
    intro b u v ha hb h
    cases b with
    | nil =>
      simp only [List.cons_append, List.nil_append] at h
      injection h with h1 _
      exact absurd (by rw [h1]; exact List.mem_cons_self '.' t) ha
    | cons d s =>
      simp only [List.cons_append] at h
      injection h with h1 h2
      have ha2 : '.' ∉ t := fun hm => ha (List.mem_cons_of_mem _ hm)
      have hb2 : '.' ∉ s := fun hm => hb (List.mem_cons_of_mem _ hm)
      obtain ⟨hab, huv⟩ := ih ha2 hb2 h2
      exact ⟨by rw [h1, hab], huv⟩

theorem append_dot_inj {u v a b : List Char} (ha : '.' ∉ a) (hb : '.' ∉ b)
    (h : u ++ '.' :: a = v ++ '.' :: b) : u = v ∧ a = b := by
  have h2 : a.reverse ++ '.' :: u.reverse = b.reverse ++ '.' :: v.reverse := by
    have h3 := congrArg List.reverse h
    simpa [List.reverse_append] using h3
  have ha2 : '.' ∉ a.reverse := by simpa using ha
  have hb2 : '.' ∉ b.reverse := by simpa using hb
  obtain ⟨h3, h4⟩ := dot_left_inj ha2 hb2 h2
  constructor
  · have h5 := congrArg List.reverse h4
    simpa using h5
  · have h5 := congrArg List.reverse h3
    simpa using h5

theorem _new_node_id_some_inj {m i j : Nat} {p q : String}
    (h : _new_node_id m (some p) i = _new_node_id m (some q) j) :
    p = q ∧ natStr i = natStr j := by
  have hd := congrArg String.data h
  rw [_new_node_id_some_data, _new_node_id_some_data] at hd
  injection hd with _ hd2
  have h1 := List.append_cancel_left hd2
  injection h1 with _ h2
  obtain ⟨hp, hij⟩ := append_dot_inj (natStr_no_dot i) (natStr_no_dot j) h2
  exact ⟨String.ext hp, String.ext hij⟩

theorem _new_node_id_none_ne_some (m i j : Nat) (p : String) :
    _new_node_id m none i ≠ _new_node_id m (some p) j := by
  intro h
  have hd := congrArg String.data h
  rw [_new_node_id_none_data, _new_node_id_some_data] at hd
  injection hd with _ hd2
  have h1 := List.append_cancel_left hd2
  injection h1 with _ h2
  have hdot : '.' ∈ p.data ++ '.' :: (natStr j).data :=
    List.mem_append_right _ (List.mem_cons_self _ _)
  rw [← h2] at hdot
  simp at hdot


/-! ### Association list lemmas -/

theorem alistLookup_mem {κ α : Type} [DecidableEq κ] {l : List (κ × α)} {k : κ} {v : α}
    (h : alistLookup l k = some v) : (k, v) ∈ l := by
  induction l with
  | nil => simp [alistLookup] at h
  | cons p t ih =>
    obtain ⟨a, b⟩ := p
    simp only [alistLookup] at h
    by_cases hk : a = k
    · rw [if_pos hk] at h
      injection h with h2
      subst hk; subst h2
      exact List.mem_cons_self _ _
    · rw [if_neg hk] at h
      exact List.mem_cons_of_mem _ (ih h)

theorem alistLookup_none_iff {κ α : Type} [DecidableEq κ] {l : List (κ × α)} {k : κ} :
    alistLookup l k = none ↔ hasKey l k = false := by
  induction l with
  | nil => simp [alistLookup, hasKey]
  | cons p t ih =>
    simp only [alistLookup, hasKey, List.any_cons] at *
    by_cases hk : p.1 = k
    · simp [hk]
    · simp [hk, ih]

theorem alistLookup_append_left {κ α : Type} [DecidableEq κ] {l l2 : List (κ × α)} {k : κ}
    {v : α} (h : alistLookup l k = some v) : alistLookup (l ++ l2) k = some v := by
  induction l with
  | nil => simp [alistLookup] at h
  | cons p t ih =>
    simp only [alistLookup, List.cons_append] at *
    by_cases hk : p.1 = k
    · rwa [if_pos hk] at h ⊢
    · rw [if_neg hk] at h ⊢
      exact ih h

theorem alistLookup_append_right {κ α : Type} [DecidableEq κ] {l l2 : List (κ × α)} {k : κ}
    (h : alistLookup l k = none) : alistLookup (l ++ l2) k = alistLookup l2 k := by
  induction l with
  | nil => simp
  | cons p t ih =>
    simp only [alistLookup, List.cons_append] at *
    by_cases hk : p.1 = k
    · rw [if_pos hk] at h; exact absurd h (by simp)
    · rw [if_neg hk] at h ⊢
      exact ih h

theorem hasKey_append {κ α : Type} [DecidableEq κ] (l l2 : List (κ × α)) (k : κ) :
    hasKey (l ++ l2) k = (hasKey l k || hasKey l2 k) := by
  simp [hasKey]

theorem dictInsert_fresh {κ α : Type} [DecidableEq κ] {l : List (κ × α)} {k : κ} (v : α)
    (h : hasKey l k = false) : dictInsert l k v = l ++ [(k, v)] := by
  rw [dictInsert, if_neg]
  rw [h]
  exact Bool.false_ne_true

theorem lookup_map_update_self {κ α : Type} [DecidableEq κ] {l : List (κ × α)} {k : κ}
    {v : α} (h : hasKey l k = true) :
    alistLookup (l.map (fun p => if p.1 = k then (k, v) else p)) k = some v := by
  induction l with
  | nil => simp [hasKey] at h
  | cons p t ih =>
    by_cases hk : p.1 = k
    · simp [List.map_cons, if_pos hk, alistLookup]
    · simp only [List.map_cons, if_neg hk, alistLookup, if_neg hk]
      apply ih
      simpa [hasKey, hk] using h

theorem lookup_map_update_ne {κ α : Type} [DecidableEq κ] {l : List (κ × α)} {k k2 : κ}
    {v : α} (h : k2 ≠ k) :
    alistLookup (l.map (fun p => if p.1 = k then (k, v) else p)) k2 = alistLookup l k2 := by
  induction l with
  | nil => simp
  | cons p t ih =>
    by_cases hk : p.1 = k
    · have hp2 : ¬(p.1 = k2) := by rw [hk]; exact fun he => h he.symm
      simp only [List.map_cons, if_pos hk, alistLookup]
      rw [if_neg (fun he : k = k2 => h he.symm), if_neg hp2]
      exact ih
    · simp only [List.map_cons, if_neg hk, alistLookup]
      by_cases hp2 : p.1 = k2
      · rw [if_pos hp2, if_pos hp2]
      · rw [if_neg hp2, if_neg hp2]
        exact ih

theorem alistLookup_dictInsert_self {κ α : Type} [DecidableEq κ] (l : List (κ × α)) (k : κ)
    (v : α) : alistLookup (dictInsert l k v) k = some v := by
  rw [dictInsert]
  by_cases hh : hasKey l k = true
  · rw [if_pos hh]
    exact lookup_map_update_self hh
  · rw [if_neg hh]
    rw [alistLookup_append_right (alistLookup_none_iff.2 (by simpa using hh))]
    simp [alistLookup]

theorem alistLookup_dictInsert_ne {κ α : Type} [DecidableEq κ] {l : List (κ × α)} {k k2 : κ}
    (v : α) (h : k2 ≠ k) : alistLookup (dictInsert l k v) k2 = alistLookup l k2 := by
  rw [dictInsert]
  by_cases hh : hasKey l k = true
  · rw [if_pos hh]
    exact lookup_map_update_ne h
  · rw [if_neg hh]
    rcases hl : alistLookup l k2 with _ | w
    · rw [alistLookup_append_right hl]
      simp only [alistLookup]
      rw [if_neg (fun he : k = k2 => h he.symm)]
    · exact alistLookup_append_left hl

theorem mem_dictInsert {κ α : Type} [DecidableEq κ] {l : List (κ × α)} {k : κ} {v : α}
    {kv : κ × α} (h : kv ∈ dictInsert l k v) : kv = (k, v) ∨ kv ∈ l := by
  rw [dictInsert] at h
  by_cases hh : hasKey l k = true
  · rw [if_pos hh] at h
    rcases List.mem_map.1 h with ⟨p, hp, he⟩
    by_cases hk : p.1 = k
    · rw [if_pos hk] at he
      exact Or.inl he.symm
    · rw [if_neg hk] at he
      exact Or.inr (he ▸ hp)
  · rw [if_neg hh] at h
    rcases List.mem_append.1 h with h2 | h2
    · exact Or.inr h2
    · exact Or.inl (List.mem_singleton.1 h2)

theorem dictInsert_keys_present {κ α : Type} [DecidableEq κ] {l : List (κ × α)} {k : κ}
    (v : α) (h : hasKey l k = true) :
    (dictInsert l k v).map Prod.fst = l.map Prod.fst := by
  rw [dictInsert, if_pos h, List.map_map]
  apply List.map_congr_left
  intro p _
  by_cases hk : p.1 = k
  · simp [hk]
  · simp [hk]


/-! ### Distinct key lemmas -/

theorem distinctKeys_nil {κ α : Type} [DecidableEq κ] :
    distinctKeys ([] : List (κ × α)) = true := rfl

theorem distinctKeys_cons_iff {κ α : Type} [DecidableEq κ] {p : κ × α} {t : List (κ × α)} :
    distinctKeys (p :: t) = true ↔ hasKey t p.1 = false ∧ distinctKeys t = true := by
  simp [distinctKeys]

theorem distinctKeys_append {κ α : Type} [DecidableEq κ] {l l2 : List (κ × α)}
    (h1 : distinctKeys l = true) (h2 : distinctKeys l2 = true)
    (h3 : ∀ kv ∈ l2, hasKey l kv.1 = false) : distinctKeys (l ++ l2) = true := by
  induction l with
  | nil => simpa using h2
  | cons p t ih =>
    rw [distinctKeys_cons_iff] at h1
    rw [List.cons_append, distinctKeys_cons_iff, hasKey_append]
    refine ⟨?_, ih h1.2 ?_⟩
    · rw [h1.1, Bool.false_or, ← alistLookup_none_iff]
      rw [alistLookup_none_iff]
      rw [hasKey]
      rw [List.any_eq_false]
      intro kv hkv
      have := h3 kv hkv
      rw [hasKey, List.any_eq_false] at this
      have h4 := this p (List.mem_cons_self _ _)
      simp only [decide_eq_true_eq] at *
      exact fun he => h4 (by rw [he])
    · intro kv hkv
      have := h3 kv hkv
      rw [hasKey, List.any_eq_false] at this
      rw [hasKey, List.any_eq_false]
      intro x hx
      exact this x (List.mem_cons_of_mem _ hx)

theorem hasKey_eq_keys {κ α : Type} [DecidableEq κ] (l : List (κ × α)) (k : κ) :
    hasKey l k = (l.map Prod.fst).any (fun a => decide (a = k)) := by
  induction l with
  | nil => rfl
  | cons p t ih =>
    simp only [hasKey, List.any_cons, List.map_cons] at *
    rw [ih]

theorem distinctKeys_congr_keys {κ α : Type} [DecidableEq κ] :
    ∀ {l l2 : List (κ × α)}, l.map Prod.fst = l2.map Prod.fst →
    distinctKeys l = distinctKeys l2 := by
  intro l
  induction l with
  | nil =>
    intro l2 h
    cases l2 with
    | nil => rfl
    | cons q s => simp at h
  | cons p t ih =>
    intro l2 h
    cases l2 with
    | nil => simp at h
    | cons q s =>
      simp only [List.map_cons, List.cons.injEq] at h
      have hk : hasKey t p.1 = hasKey s q.1 := by
        rw [hasKey_eq_keys, hasKey_eq_keys, h.2, h.1]
      show (!hasKey t p.1 && distinctKeys t) = (!hasKey s q.1 && distinctKeys s)
      rw [hk, ih h.2]

theorem distinctKeys_dictInsert {κ α : Type} [DecidableEq κ] {l : List (κ × α)} {k : κ}
    (v : α) (h : distinctKeys l = true) : distinctKeys (dictInsert l k v) = true := by
  by_cases hh : hasKey l k = true
  · rw [distinctKeys_congr_keys (dictInsert_keys_present v hh)]
    exact h
  · rw [dictInsert_fresh v (by simpa using hh)]
    apply distinctKeys_append h (show distinctKeys [(k, v)] = true from rfl)
    intro kv hkv
    rw [List.mem_singleton] at hkv
    rw [hkv]
    simpa using hh

theorem keys_nodup_of_distinctKeys {κ α : Type} [DecidableEq κ] :
    ∀ {l : List (κ × α)}, distinctKeys l = true → (l.map Prod.fst).Nodup := by
  intro l
  induction l with
  | nil => intro _; simp
  | cons p t ih =>
    intro h
    rw [distinctKeys_cons_iff] at h
    rw [List.map_cons, List.nodup_cons]
    refine ⟨?_, ih h.2⟩
    intro hmem
    rcases List.mem_map.1 hmem with ⟨q, hq, he⟩
    have := h.1
    rw [hasKey, List.any_eq_false] at this
    exact absurd he (by simpa using this q hq)

theorem alistLookup_of_mem_distinct {κ α : Type} [DecidableEq κ] :
    ∀ {l : List (κ × α)} {k : κ} {v : α}, distinctKeys l = true → (k, v) ∈ l →
    alistLookup l k = some v := by
  intro l
  induction l with
  | nil => intro k v _ hm; simp at hm
  | cons p t ih =>
    intro k v hd hm
    rw [distinctKeys_cons_iff] at hd
    rcases List.mem_cons.1 hm with h | h
    · rw [← h]
      simp [alistLookup]
    · have hk : ¬(p.1 = k) := by
        intro he
        have := hd.1
        rw [hasKey, List.any_eq_false] at this
        exact absurd he.symm (by simpa using this (k, v) h)
      simp only [alistLookup, if_neg hk]
      exact ih hd.2 h


/-! ### Enumeration, batch insertion, generator length bounds -/

theorem enumerate1_length {α : Type} : ∀ (k : Nat) (l : List α),
    (enumerate1 k l).length = l.length := by
  intro k l
  induction l generalizing k with
  | nil => rfl
  | cons a t ih => simp [enumerate1, ih]

theorem enumerate1_mem_bounds {α : Type} : ∀ {k : Nat} {l : List α} {il : Nat × α},
    il ∈ enumerate1 k l → k ≤ il.1 ∧ il.1 < k + l.length := by
  intro k l
  induction l generalizing k with
  | nil => intro il h; simp [enumerate1] at h
  | cons a t ih =>
    intro il h
    rw [enumerate1] at h
    rcases List.mem_cons.1 h with h | h
    · rw [h]
      simp only [List.length_cons]
      omega
    · have := ih h
      simp only [List.length_cons]
      omega

theorem enumerate1_pairwise_lt {α : Type} : ∀ (k : Nat) (l : List α),
    List.Pairwise (fun a b => a.1 < b.1) (enumerate1 k l) := by
  intro k l
  induction l generalizing k with
  | nil => exact List.Pairwise.nil
  | cons a t ih =>
    rw [enumerate1]
    refine List.Pairwise.cons ?_ (ih (k + 1))
    intro x hx
    have := enumerate1_mem_bounds hx
    omega

theorem enumerate1_getElem? {α : Type} : ∀ (k : Nat) (l : List α) (i : Nat),
    (enumerate1 k l)[i]? = l[i]?.map (fun a => (k + i, a)) := by
  intro k l
  induction l generalizing k with
  | nil => intro i; rfl
  | cons a t ih =>
    intro i
    cases i with
    | zero => simp [enumerate1]
    | succ i =>
      rw [enumerate1]
      simp only [List.getElem?_cons_succ]
      rw [ih (k + 1) i]
      rw [show k + 1 + i = k + (i + 1) from by omega]

theorem insertAll_fresh : ∀ (ns : List MindmapNode) (d : List (String × MindmapNode)),
    (∀ n ∈ ns, hasKey d n.id = false) →
    List.Pairwise (fun a b : MindmapNode => a.id ≠ b.id) ns →
    insertAll d ns = d ++ ns.map (fun n => (n.id, n)) := by
  intro ns
  induction ns with
  | nil => intro d _ _; simp [insertAll]
  | cons n t ih =>
    intro d hf hp
    have step : insertAll d (n :: t) = insertAll (dictInsert d n.id n) t := rfl
    rw [step, dictInsert_fresh n (hf n (List.mem_cons_self _ _))]
    rw [List.pairwise_cons] at hp
    rw [ih (d ++ [(n.id, n)]) ?_ hp.2]
    · simp
    · intro x hx
      rw [hasKey_append]
      rw [hf x (List.mem_cons_of_mem _ hx)]
      simp only [Bool.false_or, hasKey, List.any_eq_false]
      intro q hq
      rw [List.mem_singleton] at hq
      rw [hq]
      simpa using hp.1 x hx

theorem _fallback_expand_length (seed : String) (depth : Int) :
    (_fallback_expand seed depth).length = 5 := by
  simp only [_fallback_expand]
  split <;> rfl

theorem _ai_expand_idea_len_ge3 (env : RemoteEnv) (p : String) (d : Int) :
    3 ≤ (_ai_expand_idea env p d).length := by
  rw [_ai_expand_idea]
  split
  · rw [_fallback_expand_length]; omega
  · split
    · rw [_fallback_expand_length]; omega
    · split
      · rw [_fallback_expand_length]; omega
      · split
        · rw [_fallback_expand_length]; omega
        · split
          · dsimp only
            split
            · rw [_fallback_expand_length]; omega
            · rw [List.length_take]
              omega
          · rw [_fallback_expand_length]; omega

theorem _ai_expand_idea_len_le10 (env : RemoteEnv) (p : String) (d : Int) :
    (_ai_expand_idea env p d).length ≤ 10 := by
  rw [_ai_expand_idea]
  split
  · rw [_fallback_expand_length]; omega
  · split
    · rw [_fallback_expand_length]; omega
    · split
      · rw [_fallback_expand_length]; omega
      · split
        · rw [_fallback_expand_length]; omega
        · split
          · dsimp only
            split
            · rw [_fallback_expand_length]; omega
            · rw [List.length_take]
              omega
          · rw [_fallback_expand_length]; omega


/-! ### Unfolding lemma for expansion on a known map and node -/

theorem expand_found {env : RemoteEnv} {m : Nat} {nid : String} {s : MindmapState}
    {mm : Mindmap} {parent : MindmapNode}
    (hm : alistLookup s.mindmaps m = some mm)
    (hn : alistLookup mm.nodes nid = some parent) :
    expand_mindmap_node env m nid s =
      if (existingChildren mm nid).isEmpty then
        (Except.ok (expandChildren env m nid parent),
         ⟨dictInsert s.mindmaps m
            { mm with nodes := insertAll mm.nodes (expandChildren env m nid parent) },
          s.next_map_id⟩)
      else (Except.ok (existingChildren mm nid), s) := by
  simp only [expand_mindmap_node, hm, hn]

/-! ### Generator output shape lemmas -/

theorem extractItem_some {j : JsonValue} {x : String} (h : extractItem j = some x) :
    pyStrip x = x ∧ x ≠ "" := by
  cases j with
  | str s =>
    simp only [extractItem] at h
    by_cases he : pyStrip s = ""
    · rw [if_pos he] at h
      exact absurd h (by simp)
    · rw [if_neg he] at h
      injection h with h2
      rw [← h2]
      exact ⟨pyStrip_idem s, he⟩
  | null => exact absurd h (by simp [extractItem])
  | bool b => exact absurd h (by simp [extractItem])
  | num n => exact absurd h (by simp [extractItem])
  | arr items => exact absurd h (by simp [extractItem])
  | obj fields => exact absurd h (by simp [extractItem])

theorem _fallback_expand_trim_ne (seed : String) (depth : Int) :
    ∀ x ∈ _fallback_expand seed depth, pyStrip x ≠ "" := by
  intro x hx
  simp only [_fallback_expand] at hx
  split at hx
  · simp only [List.mem_cons, List.not_mem_nil, or_false] at hx
    rcases hx with h | h | h | h | h
    · rw [h]
      have hw : ('W' : Char) ∈ (("What is " ++
          (if pyRstripPunct (pyStrip seed) = "" then "Idea"
            else pyRstripPunct (pyStrip seed))) ++ "?").data := by
        rw [String.data_append, String.data_append]
        exact List.mem_append_left _ (List.mem_append_left _ (by decide))
      exact pyStrip_ne_empty hw (by decide)
    · rw [h]; decide
    · rw [h]; decide
    · rw [h]; decide
    · rw [h]; decide
  · simp only [List.mem_cons, List.not_mem_nil, or_false] at hx
    rcases hx with h | h | h | h | h
    · rw [h]; decide
    · rw [h]; decide
    · rw [h]; decide
    · rw [h]; decide
    · rw [h]; decide

theorem _ai_expand_idea_trim_ne (env : RemoteEnv) (p : String) (d : Int) :
    ∀ x ∈ _ai_expand_idea env p d, pyStrip x ≠ "" := by
  intro x hx
  rw [_ai_expand_idea] at hx
  split at hx
  · exact _fallback_expand_trim_ne _ _ x hx
  · split at hx
    · exact _fallback_expand_trim_ne _ _ x hx
    · split at hx
      · exact _fallback_expand_trim_ne _ _ x hx
      · split at hx
        · exact _fallback_expand_trim_ne _ _ x hx
        · split at hx
          · dsimp only at hx
            split at hx
            · exact _fallback_expand_trim_ne _ _ x hx
            · have hx2 := List.take_subset _ _ hx
              rcases List.mem_filterMap.1 hx2 with ⟨j, _, hj⟩
              have := extractItem_some hj
              rw [this.1]
              exact this.2
          · exact _fallback_expand_trim_ne _ _ x hx


/-! ### Claims C2, C3, C4, C5, C8, C10 -/

/-- C2: the label generator never raises: whenever the remote tier fails
(missing client library, exception during the call or parse, non-array JSON,
or fewer than 3 surviving strings), `_ai_expand_idea` returns the
deterministic fallback, so no remote error escapes to the HTTP layer. -/
theorem C2_remote_errors_fall_back (env : RemoteEnv) (prompt : String) (depth : Int)
    (h : remoteTierFailed env = true) :
    _ai_expand_idea env prompt depth = _fallback_expand prompt depth := by
  obtain ⟨apiKey, importOk, outcome⟩ := env
  rcases apiKey with _ | key
  · rfl
  · rw [remoteTierFailed] at h
    dsimp only at h
    rw [_ai_expand_idea]
    dsimp only
    by_cases hk : key = ""
    · rw [if_pos hk]
    · rw [if_neg hk]
      cases importOk with
      | false => rfl
      | true =>
        simp only [Bool.not_true, Bool.false_or] at h ⊢
        rw [if_neg (by simp)]
        rcases outcome with _ | data
        · rfl
        · rcases data with _ | b | n | sj | items | fields
          · rfl
          · rfl
          · rfl
          · rfl
          · dsimp only at h ⊢
            rw [if_pos (by simpa using h)]
          · rfl

theorem C2_witness :
    remoteTierFailed ⟨some "k", true, RemoteOutcome.ok (JsonValue.str "oops")⟩ = true ∧
    _ai_expand_idea ⟨some "k", true, RemoteOutcome.ok (JsonValue.str "oops")⟩ "Seed" 0
      = _fallback_expand "Seed" 0 :=
  ⟨by decide, C2_remote_errors_fall_back _ "Seed" 0 (by decide)⟩

/-- C3: with no backend credential configured the generator is the
deterministic rule table: for `depth ≤ 0` the five seed-derived labels with
`base` the seed stripped of whitespace and trailing `.?!` (defaulting to
`"Idea"`), and for `depth > 0` the fixed five labels, the seed ignored. -/
theorem C3_fallback_determinism (env : RemoteEnv) (seed : String) (depth : Int)
    (h : env.apiKey = none) :
    _ai_expand_idea env seed depth =
      (if depth ≤ 0 then
        ["What is " ++ (if pyRstripPunct (pyStrip seed) = "" then "Idea"
            else pyRstripPunct (pyStrip seed)) ++ "?",
         "Key components", "Examples", "Risks & constraints", "Next steps"]
      else
        ["Define", "Break into steps", "Tools / resources", "Measure success",
         "Common pitfalls"]) := by
  rw [_ai_expand_idea, h]
  rfl

theorem C3_witness :
    (⟨none, true, RemoteOutcome.exn⟩ : RemoteEnv).apiKey = none ∧
    _ai_expand_idea ⟨none, true, RemoteOutcome.exn⟩ "Learn Rust?" 0
      = ["What is Learn Rust?", "Key components", "Examples", "Risks & constraints",
         "Next steps"] ∧
    _ai_expand_idea ⟨none, true, RemoteOutcome.exn⟩ "Learn Rust?" 1
      = ["Define", "Break into steps", "Tools / resources", "Measure success",
         "Common pitfalls"] := by
  refine ⟨rfl, ?_, ?_⟩
  · rw [C3_fallback_determinism _ _ _ rfl]
    decide
  · rw [C3_fallback_determinism _ _ _ rfl]
    decide

/-- C4: on every tier the generator returns between 3 and 10 strings, each
non-empty after trimming. -/
theorem C4_generator_shape (env : RemoteEnv) (seed : String) (depth : Int) :
    3 ≤ (_ai_expand_idea env seed depth).length ∧
    (_ai_expand_idea env seed depth).length ≤ 10 ∧
    ∀ x ∈ _ai_expand_idea env seed depth, pyStrip x ≠ "" :=
  ⟨_ai_expand_idea_len_ge3 env seed depth, _ai_expand_idea_len_le10 env seed depth,
   _ai_expand_idea_trim_ne env seed depth⟩

theorem C4_witness :
    3 ≤ (_ai_expand_idea ⟨none, true, RemoteOutcome.exn⟩ "Plan a trip" 0).length ∧
    (_ai_expand_idea ⟨none, true, RemoteOutcome.exn⟩ "Plan a trip" 0).length ≤ 10 ∧
    ∀ x ∈ _ai_expand_idea ⟨none, true, RemoteOutcome.exn⟩ "Plan a trip" 0,
      pyStrip x ≠ "" :=
  C4_generator_shape ⟨none, true, RemoteOutcome.exn⟩ "Plan a trip" 0

/-- C5: the node identity scheme: the root of map `m` is `"m{m}:root"`, a
child of parent `p` with sibling index `i` is `"m{m}:{p}.{i}"`; concretely
map 7 has root id `"m7:root"` and first child id `"m7:m7:root.1"`. -/
theorem C5_node_identity_scheme :
    (∀ m i : Nat, _new_node_id m none i = "m" ++ natStr m ++ ":root") ∧
    (∀ (m i : Nat) (p : String),
      _new_node_id m (some p) i = "m" ++ natStr m ++ ":" ++ p ++ "." ++ natStr i) ∧
    _new_node_id 7 none 0 = "m7:root" ∧
    _new_node_id 7 (some (_new_node_id 7 none 0)) 1 = "m7:m7:root.1" :=
  ⟨fun _ _ => rfl, fun _ _ _ => rfl, by decide, by decide⟩

/-- C8: `expand_mindmap_node` succeeds exactly on a known map id and a known
node id of that map; on the 404 paths the store is left unchanged. -/
theorem C8_expand_not_found (env : RemoteEnv) (m : Nat) (nid : String)
    (s : MindmapState) :
    ((∃ cs, (expand_mindmap_node env m nid s).1 = Except.ok cs) ↔
      ∃ mm, alistLookup s.mindmaps m = some mm ∧ (alistLookup mm.nodes nid).isSome) ∧
    ((expand_mindmap_node env m nid s).1 = Except.error () →
      (expand_mindmap_node env m nid s).2 = s) := by
  rcases hm : alistLookup s.mindmaps m with _ | mm
  · constructor
    · constructor
      · intro ⟨cs, hc⟩
        simp [expand_mindmap_node, hm] at hc
      · intro ⟨mm2, hmm, _⟩
        exact absurd hmm (by simp)
    · intro _
      simp [expand_mindmap_node, hm]
  · rcases hn : alistLookup mm.nodes nid with _ | parent
    · constructor
      · constructor
        · intro ⟨cs, hc⟩
          simp [expand_mindmap_node, hm, hn] at hc
        · intro ⟨mm2, hmm, hsome⟩
          injection hmm with hmm
          rw [← hmm, hn] at hsome
          exact absurd hsome (by simp)
      · intro _
        simp [expand_mindmap_node, hm, hn]
    · constructor
      · constructor
        · intro _
          exact ⟨mm, rfl, by rw [hn]; rfl⟩
        · intro _
          rw [expand_found hm hn]
          by_cases hemp : (existingChildren mm nid).isEmpty = true
          · rw [if_pos hemp]
            exact ⟨_, rfl⟩
          · rw [if_neg hemp]
            exact ⟨_, rfl⟩
      · intro hc
        rw [expand_found hm hn] at hc
        by_cases hemp : (existingChildren mm nid).isEmpty = true
        · rw [if_pos hemp] at hc
          exact absurd hc (by simp)
        · rw [if_neg hemp] at hc
          exact absurd hc (by simp)

theorem C8_witness :
    ((∃ cs, (expand_mindmap_node ⟨none, true, RemoteOutcome.exn⟩ 5 "nope"
        initMindmapState).1 = Except.ok cs) ↔
      ∃ mm, alistLookup initMindmapState.mindmaps 5 = some mm ∧
        (alistLookup mm.nodes "nope").isSome) ∧
    ((expand_mindmap_node ⟨none, true, RemoteOutcome.exn⟩ 5 "nope"
        initMindmapState).1 = Except.error () →
      (expand_mindmap_node ⟨none, true, RemoteOutcome.exn⟩ 5 "nope"
        initMindmapState).2 = initMindmapState) :=
  C8_expand_not_found ⟨none, true, RemoteOutcome.exn⟩ 5 "nope" initMindmapState

/-- C10: prompt validation checks only the character count, so a prompt of
1 to 2000 whitespace characters is accepted; the created root label is the
empty string and the fallback children come from the default base `"Idea"`. -/
theorem C10_whitespace_prompt (env : RemoteEnv) (prompt : String) (s : MindmapState)
    (henv : env.apiKey = none)
    (hws : ∀ c ∈ prompt.data, isSpaceChar c)
    (hlen1 : 1 ≤ prompt.length) (hlen2 : prompt.length ≤ 2000) :
    mindmapCreateValid prompt = true ∧
    ((create_mindmap env prompt s).1.nodes.head?.map MindmapNode.label = some "") ∧
    (((create_mindmap env prompt s).1.nodes[1]?).map MindmapNode.label
      = some "What is Idea?") := by
  have hempty : pyStrip prompt = "" := pyStrip_eq_empty_iff.2 hws
  have hl : _ai_expand_idea env prompt 0 = _fallback_expand prompt 0 := by
    rw [_ai_expand_idea, henv]
  refine ⟨?_, ?_, ?_⟩
  · rw [mindmapCreateValid]
    simp [hlen1, hlen2]
  · simp [create_mindmap, hempty]
  · have hr : pyRstripPunct "" = "" := rfl
    simp [create_mindmap, createChildren, hl, _fallback_expand, hempty, hr, enumerate1]

theorem C10_witness :
    (⟨none, true, RemoteOutcome.exn⟩ : RemoteEnv).apiKey = none ∧
    (∀ c ∈ ("   " : String).data, isSpaceChar c) ∧
    1 ≤ ("   " : String).length ∧ ("   " : String).length ≤ 2000 ∧
    (mindmapCreateValid "   " = true ∧
     ((create_mindmap ⟨none, true, RemoteOutcome.exn⟩ "   "
        initMindmapState).1.nodes.head?.map MindmapNode.label = some "") ∧
     (((create_mindmap ⟨none, true, RemoteOutcome.exn⟩ "   "
        initMindmapState).1.nodes[1]?).map MindmapNode.label = some "What is Idea?")) :=
  ⟨rfl, by decide, by decide, by decide,
   C10_whitespace_prompt ⟨none, true, RemoteOutcome.exn⟩ "   " initMindmapState
     rfl (by decide) (by decide) (by decide)⟩


/-! ### Todo store invariants -/

theorem alistLookup_filter_removed {κ α : Type} [DecidableEq κ] (l : List (κ × α)) (i : κ) :
    alistLookup (l.filter (fun p => !decide (p.1 = i))) i = none := by
  induction l with
  | nil => rfl
  | cons p t ih =>
    by_cases hp : p.1 = i
    · simp only [List.filter_cons, hp]
      simpa using ih
    · simp only [List.filter_cons]
      rw [if_pos (by simpa using hp)]
      simp only [alistLookup, if_neg hp]
      exact ih

theorem alistLookup_filter_other {κ α : Type} [DecidableEq κ] {l : List (κ × α)} {i k : κ}
    (h : k ≠ i) : alistLookup (l.filter (fun p => !decide (p.1 = i))) k = alistLookup l k := by
  induction l with
  | nil => rfl
  | cons p t ih =>
    by_cases hp : p.1 = i
    · have hpk : ¬(p.1 = k) := by rw [hp]; exact fun he => h he.symm
      simp only [List.filter_cons, hp]
      simp only [alistLookup, if_neg hpk]
      simpa using ih
    · simp only [List.filter_cons]
      rw [if_pos (by simpa using hp)]
      simp only [alistLookup]
      by_cases hpk : p.1 = k
      · rw [if_pos hpk, if_pos hpk]
      · rw [if_neg hpk, if_neg hpk]
        exact ih

theorem hasKey_of_filter {κ α : Type} [DecidableEq κ] {l : List (κ × α)} {k : κ}
    {f : κ × α → Bool} (h : hasKey (l.filter f) k = true) : hasKey l k = true := by
  rw [hasKey, List.any_eq_true] at h ⊢
  rcases h with ⟨p, hp, he⟩
  exact ⟨p, List.mem_of_mem_filter hp, he⟩

theorem distinctKeys_filter {κ α : Type} [DecidableEq κ] (f : κ × α → Bool) :
    ∀ {l : List (κ × α)}, distinctKeys l = true → distinctKeys (l.filter f) = true := by
  intro l
  induction l with
  | nil => intro _; rfl
  | cons p t ih =>
    intro h
    rw [distinctKeys_cons_iff] at h
    rw [List.filter_cons]
    by_cases hf : f p = true
    · rw [if_pos hf, distinctKeys_cons_iff]
      refine ⟨?_, ih h.2⟩
      rcases hk : hasKey (t.filter f) p.1 with _ | _
      · rfl
      · exact absurd (hasKey_of_filter hk) (by rw [h.1]; exact Bool.false_ne_true)
    · rw [if_neg hf]
      exact ih h.2

theorem TodoWF_entry {s : TodoState} (h : TodoWF s = true) {k : Nat} {v : Todo}
    (hm : (k, v) ∈ s.todos) : k < s.next_id ∧ v.id = k := by
  rw [TodoWF, Bool.and_eq_true, List.all_eq_true] at h
  have := h.2 (k, v) hm
  rw [Bool.and_eq_true, decide_eq_true_eq, decide_eq_true_eq] at this
  exact this

theorem TodoWF_distinct {s : TodoState} (h : TodoWF s = true) :
    distinctKeys s.todos = true := by
  rw [TodoWF, Bool.and_eq_true] at h
  exact h.1

theorem TodoWF_preserved (op : TodoOp) (s : TodoState) (h : TodoWF s = true) :
    TodoWF (runTodoOp s op) = true := by
  have hd := TodoWF_distinct h
  cases op with
  | list => exact h
  | get i => exact h
  | create title done =>
    rw [runTodoOp, create_todo]
    rw [TodoWF, Bool.and_eq_true, List.all_eq_true]
    constructor
    · exact distinctKeys_dictInsert _ hd
    · intro p hp
      rcases mem_dictInsert hp with he | he
      · rw [he]
        simp
      · have := TodoWF_entry h he
        rw [Bool.and_eq_true, decide_eq_true_eq, decide_eq_true_eq]
        refine ⟨?_, this.2⟩
        show p.1 < s.next_id + 1
        omega
  | patch i d =>
    rw [runTodoOp, update_todo]
    rcases hl : alistLookup s.todos i with _ | t
    · exact h
    · have hm := TodoWF_entry h (alistLookup_mem hl)
      rw [TodoWF, Bool.and_eq_true, List.all_eq_true]
      constructor
      · exact distinctKeys_dictInsert _ hd
      · intro p hp
        rcases mem_dictInsert hp with he | he
        · rw [he]
          rw [Bool.and_eq_true, decide_eq_true_eq, decide_eq_true_eq]
          exact ⟨hm.1, hm.2⟩
        · have := TodoWF_entry h he
          rw [Bool.and_eq_true, decide_eq_true_eq, decide_eq_true_eq]
          exact this
  | delete i =>
    rw [runTodoOp, delete_todo]
    rcases hl : alistLookup s.todos i with _ | t
    · exact h
    · rw [TodoWF, Bool.and_eq_true, List.all_eq_true]
      constructor
      · exact distinctKeys_filter _ hd
      · intro p hp
        have := TodoWF_entry h (List.mem_of_mem_filter hp)
        rw [Bool.and_eq_true, decide_eq_true_eq, decide_eq_true_eq]
        exact this

theorem TodoWF_runTodoOps (ops : List TodoOp) : TodoWF (runTodoOps ops) = true := by
  rw [runTodoOps]
  have hinit : TodoWF initTodoState = true := rfl
  generalize initTodoState = s at hinit ⊢
  induction ops generalizing s with
  | nil => exact hinit
  | cons op t ih =>
    rw [List.foldl_cons]
    exact ih _ (TodoWF_preserved op s hinit)


/-! ### Claim C9 -/

/-- C9: a PATCH on an existing todo id sets exactly that todo's `done` flag
to the request value, keeps its `id` and `title`, leaves every other stored
todo unchanged, and no other operation ever mutates a stored todo's fields. -/
theorem C9_todo_patch_frame (op : TodoOp) (s : TodoState) (tid : Nat) (t t2 : Todo)
    (hwf : TodoWF s = true)
    (h1 : alistLookup s.todos tid = some t)
    (h2 : alistLookup (runTodoOp s op).todos tid = some t2) :
    (∀ d, alistLookup (runTodoOp s (TodoOp.patch tid d)).todos tid
        = some ⟨t.id, t.title, d⟩) ∧
    t2.id = t.id ∧ t2.title = t.title ∧
    ((∀ d, op ≠ TodoOp.patch tid d) → t2 = t) ∧
    (∀ d, op = TodoOp.patch tid d → t2 = ⟨t.id, t.title, d⟩) := by
  refine ⟨?_, ?_⟩
  · intro d
    simp only [runTodoOp, update_todo, h1]
    exact alistLookup_dictInsert_self _ _ _
  cases op with
  | list =>
    have h2b : alistLookup s.todos tid = some t2 := h2
    rw [h1] at h2b
    injection h2b with h2b
    subst h2b
    exact ⟨rfl, rfl, fun _ => rfl, fun d hop => TodoOp.noConfusion hop⟩
  | get i =>
    have h2b : alistLookup s.todos tid = some t2 := h2
    rw [h1] at h2b
    injection h2b with h2b
    subst h2b
    exact ⟨rfl, rfl, fun _ => rfl, fun d hop => TodoOp.noConfusion hop⟩
  | create title done =>
    have hlt := (TodoWF_entry hwf (alistLookup_mem h1)).1
    have h2b : alistLookup (dictInsert s.todos s.next_id
        ⟨s.next_id, title, done⟩) tid = some t2 := h2
    rw [alistLookup_dictInsert_ne _ (by omega)] at h2b
    rw [h1] at h2b
    injection h2b with h2b
    subst h2b
    exact ⟨rfl, rfl, fun _ => rfl, fun d hop => TodoOp.noConfusion hop⟩
  | patch i d =>
    by_cases hit : i = tid
    · subst hit
      simp only [runTodoOp, update_todo, h1] at h2
      rw [alistLookup_dictInsert_self] at h2
      injection h2 with h2
      refine ⟨by rw [← h2], by rw [← h2], ?_, ?_⟩
      · intro hne
        exact absurd rfl (hne d)
      · intro d2 hop
        injection hop with _ hd2
        rw [← h2, hd2]
    · rcases hli : alistLookup s.todos i with _ | u
      · simp only [runTodoOp, update_todo, hli] at h2
        rw [h1] at h2
        injection h2 with h2
        subst h2
        refine ⟨rfl, rfl, fun _ => rfl, ?_⟩
        intro d2 hop
        injection hop with hi _
        exact absurd hi hit
      · simp only [runTodoOp, update_todo, hli] at h2
        rw [alistLookup_dictInsert_ne _ (fun he => hit he.symm)] at h2
        rw [h1] at h2
        injection h2 with h2
        subst h2
        refine ⟨rfl, rfl, fun _ => rfl, ?_⟩
        intro d2 hop
        injection hop with hi _
        exact absurd hi hit
  | delete i =>
    by_cases hit : i = tid
    · subst hit
      simp only [runTodoOp, delete_todo, h1] at h2
      rw [alistLookup_filter_removed] at h2
      exact absurd h2 (by simp)
    · rcases hli : alistLookup s.todos i with _ | u
      · simp only [runTodoOp, delete_todo, hli] at h2
        rw [h1] at h2
        injection h2 with h2
        subst h2
        exact ⟨rfl, rfl, fun _ => rfl, fun d hop => TodoOp.noConfusion hop⟩
      · simp only [runTodoOp, delete_todo, hli] at h2
        rw [alistLookup_filter_other (fun he => hit he.symm)] at h2
        rw [h1] at h2
        injection h2 with h2
        subst h2
        exact ⟨rfl, rfl, fun _ => rfl, fun d hop => TodoOp.noConfusion hop⟩

theorem C9_witness :
    TodoWF (create_todo "Buy milk" false initTodoState).2 = true ∧
    alistLookup (create_todo "Buy milk" false initTodoState).2.todos 1
      = some ⟨1, "Buy milk", false⟩ ∧
    alistLookup (runTodoOp (create_todo "Buy milk" false initTodoState).2
        (TodoOp.patch 1 true)).todos 1 = some ⟨1, "Buy milk", true⟩ ∧
    ((∀ d, alistLookup (runTodoOp (create_todo "Buy milk" false initTodoState).2
          (TodoOp.patch 1 d)).todos 1 = some ⟨1, "Buy milk", d⟩) ∧
     (⟨1, "Buy milk", true⟩ : Todo).id = (⟨1, "Buy milk", false⟩ : Todo).id ∧
     (⟨1, "Buy milk", true⟩ : Todo).title = (⟨1, "Buy milk", false⟩ : Todo).title ∧
     ((∀ d, TodoOp.patch 1 true ≠ TodoOp.patch 1 d) →
        (⟨1, "Buy milk", true⟩ : Todo) = ⟨1, "Buy milk", false⟩) ∧
     (∀ d, TodoOp.patch 1 true = TodoOp.patch 1 d →
        (⟨1, "Buy milk", true⟩ : Todo) = ⟨1, "Buy milk", d⟩)) :=
  ⟨by decide, by decide, by decide,
   C9_todo_patch_frame (TodoOp.patch 1 true) (create_todo "Buy milk" false initTodoState).2
     1 ⟨1, "Buy milk", false⟩ ⟨1, "Buy milk", true⟩ (by decide) (by decide) (by decide)⟩


/-! ### Mindmap invariant accessors and freshness of generated ids -/

theorem WFm_distinct {s : MindmapState} (h : WFm s = true) :
    distinctKeys s.mindmaps = true := by
  rw [WFm, Bool.and_eq_true] at h
  exact h.1

theorem WFm_entry {s : MindmapState} (h : WFm s = true) {m : Nat} {mm : Mindmap}
    (hm : (m, mm) ∈ s.mindmaps) : m < s.next_map_id ∧ mapOK m mm = true := by
  rw [WFm, Bool.and_eq_true, List.all_eq_true] at h
  have := h.2 (m, mm) hm
  rw [Bool.and_eq_true, decide_eq_true_eq] at this
  exact this

theorem mapOK_parts {m : Nat} {mm : Mindmap} (h : mapOK m mm = true) :
    mm.map_id = m ∧ mm.root_id = _new_node_id m none 0 ∧
    distinctKeys mm.nodes = true ∧
    (∃ r, alistLookup mm.nodes mm.root_id = some r ∧ r.parent_id = none) ∧
    (∀ kv ∈ mm.nodes, nodeOK m mm kv = true) := by
  rw [mapOK] at h
  rw [Bool.and_eq_true, Bool.and_eq_true, Bool.and_eq_true, Bool.and_eq_true] at h
  obtain ⟨⟨⟨⟨h1, h2⟩, h3⟩, h4⟩, h5⟩ := h
  rw [decide_eq_true_eq] at h1
  rw [decide_eq_true_eq] at h2
  rw [List.all_eq_true] at h5
  refine ⟨h1, h2, h3, ?_, h5⟩
  rcases hl : alistLookup mm.nodes mm.root_id with _ | r
  · rw [hl] at h4
    exact absurd h4 (by simp)
  · rw [hl] at h4
    rw [decide_eq_true_eq] at h4
    exact ⟨r, rfl, h4⟩

theorem nodeOK_parts {m : Nat} {mm : Mindmap} {kv : String × MindmapNode}
    (h : nodeOK m mm kv = true) :
    kv.2.id = kv.1 ∧ 0 ≤ kv.2.depth ∧
    (kv.2.parent_id = none → kv.1 = mm.root_id ∧ kv.2.depth = 0) ∧
    (∀ p, kv.2.parent_id = some p → ∃ pn, alistLookup mm.nodes p = some pn ∧
      kv.2.depth = pn.depth + 1 ∧ isChildId m p kv.1 = true) := by
  rw [nodeOK, Bool.and_eq_true, Bool.and_eq_true] at h
  obtain ⟨⟨h1, h2⟩, h3⟩ := h
  rw [decide_eq_true_eq] at h1
  rw [decide_eq_true_eq] at h2
  refine ⟨h1, h2, ?_, ?_⟩
  · intro hp
    simp only [hp] at h3
    rw [Bool.and_eq_true, decide_eq_true_eq, decide_eq_true_eq] at h3
    exact h3
  · intro p hp
    simp only [hp] at h3
    rcases hl : alistLookup mm.nodes p with _ | pn
    · rw [hl] at h3
      exact absurd h3 (by simp)
    · rw [hl] at h3
      rw [Bool.and_eq_true, decide_eq_true_eq] at h3
      exact ⟨pn, rfl, h3.1, h3.2⟩

theorem isChildId_intro {m : Nat} {p id : String} {i : Nat} (h1 : 1 ≤ i) (h2 : i ≤ 10)
    (he : id = _new_node_id m (some p) i) : isChildId m p id = true := by
  rw [isChildId, List.any_eq_true]
  refine ⟨i - 1, List.mem_range.2 (by omega), ?_⟩
  rw [decide_eq_true_eq, he]
  congr 1
  omega

theorem isChildId_elim {m : Nat} {p id : String} (h : isChildId m p id = true) :
    ∃ i, 1 ≤ i ∧ i ≤ 10 ∧ id = _new_node_id m (some p) i := by
  rw [isChildId, List.any_eq_true] at h
  rcases h with ⟨j, hj, he⟩
  rw [decide_eq_true_eq] at he
  rw [List.mem_range] at hj
  exact ⟨j + 1, by omega, by omega, he⟩

theorem existingChildren_eq_nil {mm : Mindmap} {nid : String}
    (h : (existingChildren mm nid).isEmpty = true) :
    ∀ kv ∈ mm.nodes, kv.2.parent_id ≠ some nid := by
  intro kv hkv hpid
  rw [List.isEmpty_iff] at h
  have hmem : kv.2 ∈ existingChildren mm nid := by
    rw [existingChildren, List.mem_filter]
    exact ⟨List.mem_map_of_mem Prod.snd hkv, by rw [decide_eq_true_eq]; exact hpid⟩
  rw [h] at hmem
  exact absurd hmem (List.not_mem_nil _)

theorem new_child_fresh {m : Nat} {mm : Mindmap} {nid : String} {i : Nat}
    (hOK : ∀ kv ∈ mm.nodes, nodeOK m mm kv = true)
    (hroot : mm.root_id = _new_node_id m none 0)
    (hemp : (existingChildren mm nid).isEmpty = true) :
    hasKey mm.nodes (_new_node_id m (some nid) i) = false := by
  rcases hh : hasKey mm.nodes (_new_node_id m (some nid) i) with _ | _
  · rfl
  · exfalso
    rw [hasKey, List.any_eq_true] at hh
    rcases hh with ⟨kv, hkv, he⟩
    rw [decide_eq_true_eq] at he
    have hnOK := nodeOK_parts (hOK kv hkv)
    rcases hpid : kv.2.parent_id with _ | q
    · have := (hnOK.2.2.1 hpid).1
      rw [he, hroot] at this
      exact _new_node_id_none_ne_some m 0 i nid this.symm
    · rcases hnOK.2.2.2 q hpid with ⟨pn, _, _, hcid⟩
      rcases isChildId_elim hcid with ⟨j, _, _, hid⟩
      rw [he] at hid
      have hinj := _new_node_id_some_inj hid
      have hq : q = nid := hinj.1.symm
      rw [hq] at hpid
      exact existingChildren_eq_nil hemp kv hkv hpid

theorem pairwise_ids_of_enum {L : List String} {m : Nat} {pid : String}
    {f : Nat × String → MindmapNode}
    (hlen : L.length ≤ 10)
    (hf : ∀ il, (f il).id = _new_node_id m (some pid) il.1) :
    List.Pairwise (fun a b : MindmapNode => a.id ≠ b.id) ((enumerate1 1 L).map f) := by
  rw [List.pairwise_map]
  have hp := enumerate1_pairwise_lt 1 L
  refine List.Pairwise.imp_of_mem ?_ hp
  intro a b ha hb hlt he
  have hba := enumerate1_mem_bounds ha
  have hbb := enumerate1_mem_bounds hb
  rw [hf a, hf b] at he
  have hinj := _new_node_id_some_inj he
  have := natStr_inj_lt11 a.1 (by omega) b.1 (by omega) hinj.2
  omega

theorem expandChildren_mem {env : RemoteEnv} {m : Nat} {nid : String}
    {parent n : MindmapNode} (h : n ∈ expandChildren env m nid parent) :
    n.parent_id = some nid ∧ n.depth = parent.depth + 1 ∧
    ∃ i, 1 ≤ i ∧ i ≤ 10 ∧ n.id = _new_node_id m (some nid) i := by
  rcases List.mem_map.1 h with ⟨il, hil, he⟩
  have hb := enumerate1_mem_bounds hil
  have hlen := _ai_expand_idea_len_le10 env parent.label parent.depth
  rw [← he]
  exact ⟨rfl, rfl, il.1, by omega, by omega, rfl⟩

theorem createChildren_mem {env : RemoteEnv} {m : Nat} {root_id : String}
    {prompt : String} {n : MindmapNode} (h : n ∈ createChildren env m root_id prompt) :
    n.parent_id = some root_id ∧ n.depth = 1 ∧
    ∃ i, 1 ≤ i ∧ i ≤ 10 ∧ n.id = _new_node_id m (some root_id) i := by
  rcases List.mem_map.1 h with ⟨il, hil, he⟩
  have hb := enumerate1_mem_bounds hil
  have hlen := _ai_expand_idea_len_le10 env prompt 0
  rw [← he]
  exact ⟨rfl, rfl, il.1, by omega, by omega, rfl⟩

theorem expandChildren_pairwise (env : RemoteEnv) (m : Nat) (nid : String)
    (parent : MindmapNode) :
    List.Pairwise (fun a b : MindmapNode => a.id ≠ b.id)
      (expandChildren env m nid parent) :=
  pairwise_ids_of_enum (_ai_expand_idea_len_le10 env parent.label parent.depth)
    (fun _ => rfl)

theorem createChildren_pairwise (env : RemoteEnv) (m : Nat) (root_id prompt : String) :
    List.Pairwise (fun a b : MindmapNode => a.id ≠ b.id)
      (createChildren env m root_id prompt) :=
  pairwise_ids_of_enum (_ai_expand_idea_len_le10 env prompt 0) (fun _ => rfl)

theorem distinctKeys_of_pairwise_ids :
    ∀ {ns : List MindmapNode},
    List.Pairwise (fun a b : MindmapNode => a.id ≠ b.id) ns →
    distinctKeys (ns.map (fun n => (n.id, n))) = true := by
  intro ns
  induction ns with
  | nil => intro _; rfl
  | cons n t ih =>
    intro h
    rw [List.pairwise_cons] at h
    rw [List.map_cons, distinctKeys_cons_iff]
    refine ⟨?_, ih h.2⟩
    rw [hasKey, List.any_eq_false]
    intro q hq
    rcases List.mem_map.1 hq with ⟨x, hx, he⟩
    rw [← he]
    simpa using (h.1 x hx).symm


/-! ### Preservation of well-formedness by creation -/

theorem create_mindmap_eq (env : RemoteEnv) (prompt : String) (s : MindmapState) :
    create_mindmap env prompt s =
      (⟨s.next_map_id, _new_node_id s.next_map_id none 0,
         ⟨_new_node_id s.next_map_id none 0, pyStrip prompt, none, 0⟩ ::
           createChildren env s.next_map_id (_new_node_id s.next_map_id none 0) prompt⟩,
       ⟨dictInsert s.mindmaps s.next_map_id
          ⟨s.next_map_id, _new_node_id s.next_map_id none 0,
           insertAll []
             (⟨_new_node_id s.next_map_id none 0, pyStrip prompt, none, 0⟩ ::
               createChildren env s.next_map_id (_new_node_id s.next_map_id none 0)
                 prompt)⟩,
        s.next_map_id + 1⟩) := rfl

theorem WFm_intro {s : MindmapState} (h1 : distinctKeys s.mindmaps = true)
    (h2 : ∀ p ∈ s.mindmaps, p.1 < s.next_map_id ∧ mapOK p.1 p.2 = true) :
    WFm s = true := by
  rw [WFm, Bool.and_eq_true, List.all_eq_true]
  refine ⟨h1, fun p hp => ?_⟩
  rw [Bool.and_eq_true, decide_eq_true_eq]
  exact h2 p hp

theorem mapOK_intro {m : Nat} {mm : Mindmap}
    (h1 : mm.map_id = m) (h2 : mm.root_id = _new_node_id m none 0)
    (h3 : distinctKeys mm.nodes = true)
    (h4 : ∃ r, alistLookup mm.nodes mm.root_id = some r ∧ r.parent_id = none)
    (h5 : ∀ kv ∈ mm.nodes, nodeOK m mm kv = true) : mapOK m mm = true := by
  rw [mapOK]
  rcases h4 with ⟨r, hl, hr⟩
  rw [hl]
  rw [Bool.and_eq_true, Bool.and_eq_true, Bool.and_eq_true, Bool.and_eq_true]
  refine ⟨⟨⟨⟨?_, ?_⟩, h3⟩, ?_⟩, ?_⟩
  · rw [decide_eq_true_eq]; exact h1
  · rw [decide_eq_true_eq]; exact h2
  · rw [decide_eq_true_eq]; exact hr
  · rw [List.all_eq_true]; exact fun kv hkv => h5 kv hkv

theorem nodeOK_intro {m : Nat} {mm : Mindmap} {kv : String × MindmapNode}
    (h1 : kv.2.id = kv.1) (h2 : 0 ≤ kv.2.depth)
    (h3 : kv.2.parent_id = none → kv.1 = mm.root_id ∧ kv.2.depth = 0)
    (h4 : ∀ p, kv.2.parent_id = some p → ∃ pn, alistLookup mm.nodes p = some pn ∧
        kv.2.depth = pn.depth + 1 ∧ isChildId m p kv.1 = true) :
    nodeOK m mm kv = true := by
  rw [nodeOK]
  rcases hp : kv.2.parent_id with _ | p
  · simp [h1, h2, (h3 hp).1, (h3 hp).2]
  · rcases h4 p hp with ⟨pn, hl, hd, hc⟩
    simp [hl, h1, h2, hd, hc]
    omega

theorem hasKey_next_false {s : MindmapState} (h : WFm s = true) :
    hasKey s.mindmaps s.next_map_id = false := by
  rcases hh : hasKey s.mindmaps s.next_map_id with _ | _
  · rfl
  · exfalso
    rw [hasKey, List.any_eq_true] at hh
    rcases hh with ⟨p, hp, he⟩
    rw [decide_eq_true_eq] at he
    have := (WFm_entry h hp).1
    omega

theorem mapOK_create (env : RemoteEnv) (prompt : String) (m : Nat) :
    mapOK m ⟨m, _new_node_id m none 0,
      insertAll [] (⟨_new_node_id m none 0, pyStrip prompt, none, 0⟩ ::
        createChildren env m (_new_node_id m none 0) prompt)⟩ = true := by
  have hpw : List.Pairwise (fun a b : MindmapNode => a.id ≠ b.id)
      ((⟨_new_node_id m none 0, pyStrip prompt, none, 0⟩ : MindmapNode) ::
        createChildren env m (_new_node_id m none 0) prompt) := by
    rw [List.pairwise_cons]
    refine ⟨?_, createChildren_pairwise env m _ prompt⟩
    intro n hn he
    rcases (createChildren_mem hn).2.2 with ⟨i, _, _, hid⟩
    rw [hid] at he
    exact _new_node_id_none_ne_some m 0 i _ he
  have hins : insertAll []
      ((⟨_new_node_id m none 0, pyStrip prompt, none, 0⟩ : MindmapNode) ::
        createChildren env m (_new_node_id m none 0) prompt)
      = ((⟨_new_node_id m none 0, pyStrip prompt, none, 0⟩ : MindmapNode) ::
          createChildren env m (_new_node_id m none 0) prompt).map
            (fun n => (n.id, n)) :=
    insertAll_fresh _ [] (fun n _ => rfl) hpw
  rw [hins]
  have hrootl : alistLookup
      (((⟨_new_node_id m none 0, pyStrip prompt, none, 0⟩ : MindmapNode) ::
          createChildren env m (_new_node_id m none 0) prompt).map (fun n => (n.id, n)))
      (_new_node_id m none 0)
      = some ⟨_new_node_id m none 0, pyStrip prompt, none, 0⟩ := by
    rw [List.map_cons]
    simp [alistLookup]
  refine mapOK_intro rfl rfl (distinctKeys_of_pairwise_ids hpw) ⟨_, hrootl, rfl⟩ ?_
  intro kv hkv
  rcases List.mem_map.1 hkv with ⟨n, hn, he⟩
  rcases List.mem_cons.1 hn with hr | hc
  · refine nodeOK_intro (by rw [← he]) (by rw [← he, hr]) ?_ ?_
    · intro _
      rw [← he, hr]
      exact ⟨rfl, rfl⟩
    · intro p hp
      rw [← he, hr] at hp
      exact absurd hp (by simp)
  · obtain ⟨hpid, hdep, i, hi1, hi10, hid⟩ := createChildren_mem hc
    refine nodeOK_intro (by rw [← he]) (by rw [← he, hdep]; omega) ?_ ?_
    · intro hp
      rw [← he, hpid] at hp
      exact absurd hp (by simp)
    · intro p hp
      rw [← he] at hp ⊢
      rw [hpid] at hp
      injection hp with hp
      subst hp
      refine ⟨⟨_new_node_id m none 0, pyStrip prompt, none, 0⟩, hrootl, ?_, ?_⟩
      · rw [hdep]
        rfl
      · exact isChildId_intro hi1 hi10 hid

theorem WFm_create (env : RemoteEnv) (prompt : String) (s : MindmapState)
    (h : WFm s = true) : WFm (create_mindmap env prompt s).2 = true := by
  have hfresh := hasKey_next_false h
  rw [create_mindmap_eq]
  show WFm ⟨dictInsert s.mindmaps s.next_map_id _, s.next_map_id + 1⟩ = true
  rw [dictInsert_fresh _ hfresh]
  refine WFm_intro ?_ ?_
  · refine distinctKeys_append (WFm_distinct h) (by rfl) ?_
    intro kv hkv
    rw [List.mem_singleton] at hkv
    rw [hkv]
    exact hfresh
  · intro p hp
    rcases List.mem_append.1 hp with hold | hnew
    · have := WFm_entry h hold
      exact ⟨by show p.1 < s.next_map_id + 1; omega, this.2⟩
    · rw [List.mem_singleton] at hnew
      rw [hnew]
      exact ⟨by show s.next_map_id < s.next_map_id + 1; omega, mapOK_create env prompt s.next_map_id⟩


/-! ### Preservation of well-formedness by expansion -/

theorem expand_insert_eq {env : RemoteEnv} {m : Nat} {nid : String} {mm : Mindmap}
    {parent : MindmapNode}
    (hOK : ∀ kv ∈ mm.nodes, nodeOK m mm kv = true)
    (hroot : mm.root_id = _new_node_id m none 0)
    (hemp : (existingChildren mm nid).isEmpty = true) :
    insertAll mm.nodes (expandChildren env m nid parent)
      = mm.nodes ++ (expandChildren env m nid parent).map (fun n => (n.id, n)) := by
  apply insertAll_fresh
  · intro n hn
    rcases (expandChildren_mem hn).2.2 with ⟨i, _, _, hid⟩
    rw [hid]
    exact new_child_fresh hOK hroot hemp
  · exact expandChildren_pairwise env m nid parent

theorem nodeOK_extend {m : Nat} {mm : Mindmap} {ext : List (String × MindmapNode)}
    {kv : String × MindmapNode} (h : nodeOK m mm kv = true) :
    nodeOK m ⟨mm.map_id, mm.root_id, mm.nodes ++ ext⟩ kv = true := by
  have hp := nodeOK_parts h
  refine nodeOK_intro hp.1 hp.2.1 ?_ ?_
  · intro hpid
    exact hp.2.2.1 hpid
  · intro p hpid
    rcases hp.2.2.2 p hpid with ⟨pn, hl, hd, hc⟩
    exact ⟨pn, alistLookup_append_left hl, hd, hc⟩

theorem mapOK_expand {env : RemoteEnv} {m : Nat} {nid : String} {mm : Mindmap}
    {parent : MindmapNode}
    (hOK : mapOK m mm = true)
    (hn : alistLookup mm.nodes nid = some parent)
    (hemp : (existingChildren mm nid).isEmpty = true) :
    mapOK m ⟨mm.map_id, mm.root_id,
      insertAll mm.nodes (expandChildren env m nid parent)⟩ = true := by
  obtain ⟨h1, h2, h3, ⟨r, hrl, hrp⟩, h5⟩ := mapOK_parts hOK
  rw [expand_insert_eq h5 h2 hemp]
  have hpar := nodeOK_parts (h5 (nid, parent) (alistLookup_mem hn))
  have hd0 : 0 ≤ parent.depth := hpar.2.1
  refine mapOK_intro h1 h2 ?_ ?_ ?_
  · refine distinctKeys_append h3
      (distinctKeys_of_pairwise_ids (expandChildren_pairwise env m nid parent)) ?_
    intro kv hkv
    rcases List.mem_map.1 hkv with ⟨n, hn2, he⟩
    rcases (expandChildren_mem hn2).2.2 with ⟨i, _, _, hid⟩
    rw [← he]
    show hasKey mm.nodes n.id = false
    rw [hid]
    exact new_child_fresh h5 h2 hemp
  · exact ⟨r, alistLookup_append_left hrl, hrp⟩
  · intro kv hkv
    rcases List.mem_append.1 hkv with hold | hnew
    · exact nodeOK_extend (h5 kv hold)
    · rcases List.mem_map.1 hnew with ⟨n, hn2, he⟩
      obtain ⟨hpid, hdep, i, hi1, hi10, hid⟩ := expandChildren_mem hn2
      refine nodeOK_intro (by rw [← he]) (by rw [← he]; show 0 ≤ n.depth; omega) ?_ ?_
      · intro hpn
        rw [← he, hpid] at hpn
        exact absurd hpn (by simp)
      · intro p hpn
        rw [← he] at hpn ⊢
        rw [hpid] at hpn
        injection hpn with hpn
        subst hpn
        refine ⟨parent, alistLookup_append_left hn, ?_, ?_⟩
        · show n.depth = parent.depth + 1
          exact hdep
        · show isChildId m nid n.id = true
          exact isChildId_intro hi1 hi10 hid

theorem WFm_expand (env : RemoteEnv) (m : Nat) (nid : String) (s : MindmapState)
    (h : WFm s = true) : WFm (expand_mindmap_node env m nid s).2 = true := by
  rcases hm : alistLookup s.mindmaps m with _ | mm
  · have hs : (expand_mindmap_node env m nid s).2 = s := by
      simp [expand_mindmap_node, hm]
    rw [hs]
    exact h
  · rcases hn : alistLookup mm.nodes nid with _ | parent
    · have hs : (expand_mindmap_node env m nid s).2 = s := by
        simp [expand_mindmap_node, hm, hn]
      rw [hs]
      exact h
    · rw [expand_found hm hn]
      by_cases hemp : (existingChildren mm nid).isEmpty = true
      · rw [if_pos hemp]
        show WFm ⟨dictInsert s.mindmaps m
            { mm with nodes := insertAll mm.nodes (expandChildren env m nid parent) },
          s.next_map_id⟩ = true
        have hmem := alistLookup_mem hm
        have hOK := (WFm_entry h hmem).2
        have hlt := (WFm_entry h hmem).1
        have hkey : hasKey s.mindmaps m = true := by
          rcases hh : hasKey s.mindmaps m with _ | _
          · rw [alistLookup_none_iff.2 hh] at hm
            exact absurd hm (by simp)
          · rfl
        refine WFm_intro ?_ ?_
        · show distinctKeys (dictInsert s.mindmaps m _) = true
          rw [distinctKeys_congr_keys (dictInsert_keys_present _ hkey)]
          exact WFm_distinct h
        · intro p hp
          rcases mem_dictInsert hp with he | hold
          · rw [he]
            refine ⟨hlt, ?_⟩
            exact mapOK_expand hOK hn hemp
          · exact WFm_entry h hold
      · rw [if_neg hemp]
        exact h

theorem WFm_preserved (op : MOp) (s : MindmapState) (h : WFm s = true) :
    WFm (runMOp s op) = true := by
  cases op with
  | create env prompt => exact WFm_create env prompt s h
  | expand env m nid => exact WFm_expand env m nid s h

theorem WFm_runMOps (ops : List MOp) : WFm (runMOps ops) = true := by
  rw [runMOps]
  have hinit : WFm initMindmapState = true := rfl
  generalize initMindmapState = s at hinit ⊢
  induction ops generalizing s with
  | nil => exact hinit
  | cons op t ih =>
    rw [List.foldl_cons]
    exact ih _ (WFm_preserved op s hinit)


/-! ### The parent chain reaches the root in exactly depth steps -/

theorem climb_step {m : Nat} {mm : Mindmap}
    (hdist : distinctKeys mm.nodes = true)
    (hOK : ∀ kv ∈ mm.nodes, nodeOK m mm kv = true) :
    ∀ (j : Nat) (k : String) (v : MindmapNode), (k, v) ∈ mm.nodes →
    j ≤ v.depth.toNat →
    ∃ x xn, climb mm.nodes k j = some x ∧ alistLookup mm.nodes x = some xn ∧
      xn.depth = v.depth - j := by
  intro j
  induction j with
  | zero =>
    intro k v hm _
    exact ⟨k, v, rfl, alistLookup_of_mem_distinct hdist hm, by omega⟩
  | succ j ih =>
    intro k v hm hj
    have hv := nodeOK_parts (hOK (k, v) hm)
    have hlk : alistLookup mm.nodes k = some v := alistLookup_of_mem_distinct hdist hm
    rcases hpid : v.parent_id with _ | p
    · have hd00 : v.depth = 0 := ((hv.2.2.1 hpid).2 : (k, v).2.depth = 0)
      omega
    · rcases hv.2.2.2 p hpid with ⟨pn, hpl, hpd, _⟩
      have hpd2 : v.depth = pn.depth + 1 := hpd
      have hpmem := alistLookup_mem hpl
      have hpn := nodeOK_parts (hOK (p, pn) hpmem)
      have hpn0 : 0 ≤ pn.depth := hpn.2.1
      have hstep : climb mm.nodes k (j + 1) = climb mm.nodes p j := by
        rw [climb, hlk]
        simp only [hpid]
      rcases ih p pn hpmem (by omega) with ⟨x, xn, hc, hl, hd⟩
      refine ⟨x, xn, by rw [hstep]; exact hc, hl, ?_⟩
      omega

theorem climb_exact {m : Nat} {mm : Mindmap} (hOK : mapOK m mm = true) :
    ∀ kv ∈ mm.nodes, climb mm.nodes kv.1 kv.2.depth.toNat = some mm.root_id ∧
      ∀ j < kv.2.depth.toNat, climb mm.nodes kv.1 j ≠ some mm.root_id := by
  obtain ⟨_, _, h3, ⟨r, hrl, hrp⟩, h5⟩ := mapOK_parts hOK
  have hr0 : r.depth = 0 :=
    ((nodeOK_parts (h5 _ (alistLookup_mem hrl))).2.2.1 hrp).2
  intro kv hkv
  have hv := nodeOK_parts (h5 kv hkv)
  have hv0 : 0 ≤ kv.2.depth := hv.2.1
  constructor
  · rcases climb_step h3 h5 kv.2.depth.toNat kv.1 kv.2 hkv (by omega)
      with ⟨x, xn, hc, hl, hd⟩
    have hx := nodeOK_parts (h5 (x, xn) (alistLookup_mem hl))
    have hxd : xn.depth = 0 := by omega
    rcases hxp : xn.parent_id with _ | q
    · have hxr : x = mm.root_id := (hx.2.2.1 hxp).1
      rw [hc, hxr]
    · rcases hx.2.2.2 q hxp with ⟨qn, hql, hqd, _⟩
      have hqd2 : xn.depth = qn.depth + 1 := hqd
      have hqn0 : 0 ≤ qn.depth :=
        (nodeOK_parts (h5 (q, qn) (alistLookup_mem hql))).2.1
      omega
  · intro j hj hcr
    rcases climb_step h3 h5 j kv.1 kv.2 hkv (by omega) with ⟨x, xn, hcx, hl, hd⟩
    rw [hcx] at hcr
    injection hcr with hcr
    rw [hcr] at hl
    rw [hrl] at hl
    injection hl with hl
    rw [hl] at hr0
    omega


/-! ### Claim C7 -/

/-- C7: in every reachable store state, each map's node dict has no duplicate
ids, each stored node's `id` field equals its key, each non-root node's
parent exists one level up in the same map, and following `parent_id` links
from any node reaches the root in exactly `depth` steps. -/
theorem C7_tree_invariant (ops : List MOp) (m : Nat) (mm : Mindmap)
    (hmem : (m, mm) ∈ (runMOps ops).mindmaps) :
    (mm.nodes.map Prod.fst).Nodup ∧
    (∀ kv ∈ mm.nodes, kv.2.id = kv.1) ∧
    (∀ kv ∈ mm.nodes, ∀ p, kv.2.parent_id = some p →
      ∃ pn, alistLookup mm.nodes p = some pn ∧ kv.2.depth = pn.depth + 1) ∧
    (∀ kv ∈ mm.nodes, climb mm.nodes kv.1 kv.2.depth.toNat = some mm.root_id ∧
      ∀ j < kv.2.depth.toNat, climb mm.nodes kv.1 j ≠ some mm.root_id) := by
  have hwf := WFm_runMOps ops
  have hOK := (WFm_entry hwf hmem).2
  obtain ⟨_, _, h3, _, h5⟩ := mapOK_parts hOK
  refine ⟨keys_nodup_of_distinctKeys h3, ?_, ?_, climb_exact hOK⟩
  · intro kv hkv
    exact (nodeOK_parts (h5 kv hkv)).1
  · intro kv hkv p hp
    rcases (nodeOK_parts (h5 kv hkv)).2.2.2 p hp with ⟨pn, hl, hd, _⟩
    exact ⟨pn, hl, hd⟩

theorem C7_witness :
    ((1, (alistLookup (runMOps
        [MOp.create ⟨none, true, RemoteOutcome.exn⟩ "Plan a trip"]).mindmaps 1).getD
        ⟨0, "", []⟩) ∈ (runMOps
        [MOp.create ⟨none, true, RemoteOutcome.exn⟩ "Plan a trip"]).mindmaps) ∧
    ((((alistLookup (runMOps
        [MOp.create ⟨none, true, RemoteOutcome.exn⟩ "Plan a trip"]).mindmaps 1).getD
        ⟨0, "", []⟩).nodes.map Prod.fst).Nodup ∧
     (∀ kv ∈ ((alistLookup (runMOps
        [MOp.create ⟨none, true, RemoteOutcome.exn⟩ "Plan a trip"]).mindmaps 1).getD
        ⟨0, "", []⟩).nodes, kv.2.id = kv.1) ∧
     (∀ kv ∈ ((alistLookup (runMOps
        [MOp.create ⟨none, true, RemoteOutcome.exn⟩ "Plan a trip"]).mindmaps 1).getD
        ⟨0, "", []⟩).nodes, ∀ p, kv.2.parent_id = some p →
       ∃ pn, alistLookup ((alistLookup (runMOps
        [MOp.create ⟨none, true, RemoteOutcome.exn⟩ "Plan a trip"]).mindmaps 1).getD
        ⟨0, "", []⟩).nodes p = some pn ∧ kv.2.depth = pn.depth + 1) ∧
     (∀ kv ∈ ((alistLookup (runMOps
        [MOp.create ⟨none, true, RemoteOutcome.exn⟩ "Plan a trip"]).mindmaps 1).getD
        ⟨0, "", []⟩).nodes,
       climb ((alistLookup (runMOps
        [MOp.create ⟨none, true, RemoteOutcome.exn⟩ "Plan a trip"]).mindmaps 1).getD
        ⟨0, "", []⟩).nodes kv.1 kv.2.depth.toNat
         = some ((alistLookup (runMOps
        [MOp.create ⟨none, true, RemoteOutcome.exn⟩ "Plan a trip"]).mindmaps 1).getD
        ⟨0, "", []⟩).root_id ∧
       ∀ j < kv.2.depth.toNat,
         climb ((alistLookup (runMOps
        [MOp.create ⟨none, true, RemoteOutcome.exn⟩ "Plan a trip"]).mindmaps 1).getD
        ⟨0, "", []⟩).nodes kv.1 j
           ≠ some ((alistLookup (runMOps
        [MOp.create ⟨none, true, RemoteOutcome.exn⟩ "Plan a trip"]).mindmaps 1).getD
        ⟨0, "", []⟩).root_id)) :=
  ⟨by decide, C7_tree_invariant
    [MOp.create ⟨none, true, RemoteOutcome.exn⟩ "Plan a trip"] 1 _ (by decide)⟩


/-! ### Claim C1 -/

theorem expandChildren_length (env : RemoteEnv) (m : Nat) (nid : String)
    (parent : MindmapNode) :
    (expandChildren env m nid parent).length
      = (_ai_expand_idea env parent.label parent.depth).length := by
  rw [expandChildren, List.length_map, enumerate1_length]

theorem map_snd_pair (ns : List MindmapNode) :
    ((ns.map (fun n => (n.id, n))).map Prod.snd) = ns := by
  rw [List.map_map]
  exact List.map_id ns

theorem existingChildren_insert {mm : Mindmap} {nid : String} (NEW : List MindmapNode)
    (hnew : ∀ n ∈ NEW, n.parent_id = some nid)
    (hemp : (existingChildren mm nid).isEmpty = true) :
    existingChildren ⟨mm.map_id, mm.root_id,
      mm.nodes ++ NEW.map (fun n => (n.id, n))⟩ nid = NEW := by
  have h1 : existingChildren mm nid = [] := List.isEmpty_iff.1 hemp
  rw [existingChildren] at h1 ⊢
  show ((mm.nodes ++ NEW.map _).map Prod.snd).filter _ = NEW
  rw [List.map_append, List.filter_append, map_snd_pair, h1, List.nil_append]
  rw [List.filter_eq_self]
  intro n hn
  rw [decide_eq_true_eq]
  exact hnew n hn

/-- C1: idempotent expansion: after one successful expansion call, a repeated
expansion of the same node (under any remote environment) returns the same
children in the same order and leaves the store, hence the map's node count,
unchanged. -/
theorem C1_expand_idempotent (env1 env2 : RemoteEnv) (m : Nat) (nid : String)
    (s s1 : MindmapState) (cs : List MindmapNode)
    (hwf : WFm s = true)
    (h1 : expand_mindmap_node env1 m nid s = (Except.ok cs, s1)) :
    expand_mindmap_node env2 m nid s1 = (Except.ok cs, s1) := by
  rcases hm : alistLookup s.mindmaps m with _ | mm
  · simp [expand_mindmap_node, hm] at h1
  · rcases hn : alistLookup mm.nodes nid with _ | parent
    · simp [expand_mindmap_node, hm, hn] at h1
    · have hOK := (WFm_entry hwf (alistLookup_mem hm)).2
      obtain ⟨_, hroot, _, _, h5⟩ := mapOK_parts hOK
      rw [expand_found hm hn] at h1
      by_cases hemp : (existingChildren mm nid).isEmpty = true
      · rw [if_pos hemp] at h1
        injection h1 with ha hb
        injection ha with ha
        subst ha
        subst hb
        have hins : insertAll mm.nodes (expandChildren env1 m nid parent)
            = mm.nodes ++ (expandChildren env1 m nid parent).map (fun n => (n.id, n)) :=
          expand_insert_eq h5 hroot hemp
        have hm2 : alistLookup (dictInsert s.mindmaps m
            { mm with nodes := insertAll mm.nodes (expandChildren env1 m nid parent) }) m
            = some { mm with nodes := insertAll mm.nodes (expandChildren env1 m nid parent) } :=
          alistLookup_dictInsert_self _ _ _
        have hn2 : alistLookup (insertAll mm.nodes (expandChildren env1 m nid parent)) nid
            = some parent := by
          rw [hins]
          exact alistLookup_append_left hn
        rw [expand_found hm2 hn2]
        have hex : existingChildren
            { mm with nodes := insertAll mm.nodes (expandChildren env1 m nid parent) } nid
            = expandChildren env1 m nid parent := by
          show existingChildren ⟨mm.map_id, mm.root_id,
            insertAll mm.nodes (expandChildren env1 m nid parent)⟩ nid = _
          rw [hins]
          exact existingChildren_insert _ (fun n hn => (expandChildren_mem hn).1) hemp
        rw [hex]
        have hlen : 3 ≤ (expandChildren env1 m nid parent).length := by
          rw [expandChildren_length]
          exact _ai_expand_idea_len_ge3 env1 parent.label parent.depth
        rcases hNE : expandChildren env1 m nid parent with _ | ⟨c, cs2⟩
        · rw [hNE] at hlen
          simp at hlen
        · rw [if_neg (by rw [List.isEmpty_cons]; exact Bool.false_ne_true)]
      · rw [if_neg hemp] at h1
        injection h1 with ha hb
        injection ha with ha
        subst ha
        subst hb
        rw [expand_found hm hn]
        rw [if_neg hemp]

theorem C1_witness :
    WFm (create_mindmap ⟨none, true, RemoteOutcome.exn⟩ "Plan a trip"
      initMindmapState).2 = true ∧
    expand_mindmap_node ⟨none, true, RemoteOutcome.exn⟩ 1 "m1:root"
        (create_mindmap ⟨none, true, RemoteOutcome.exn⟩ "Plan a trip"
          initMindmapState).2
      = (Except.ok
          [⟨"m1:m1:root.1", "What is Plan a trip?", some "m1:root", 1⟩,
           ⟨"m1:m1:root.2", "Key components", some "m1:root", 1⟩,
           ⟨"m1:m1:root.3", "Examples", some "m1:root", 1⟩,
           ⟨"m1:m1:root.4", "Risks & constraints", some "m1:root", 1⟩,
           ⟨"m1:m1:root.5", "Next steps", some "m1:root", 1⟩],
         (create_mindmap ⟨none, true, RemoteOutcome.exn⟩ "Plan a trip"
           initMindmapState).2) ∧
    expand_mindmap_node ⟨some "k", false, RemoteOutcome.exn⟩ 1 "m1:root"
        (create_mindmap ⟨none, true, RemoteOutcome.exn⟩ "Plan a trip"
          initMindmapState).2
      = (Except.ok
          [⟨"m1:m1:root.1", "What is Plan a trip?", some "m1:root", 1⟩,
           ⟨"m1:m1:root.2", "Key components", some "m1:root", 1⟩,
           ⟨"m1:m1:root.3", "Examples", some "m1:root", 1⟩,
           ⟨"m1:m1:root.4", "Risks & constraints", some "m1:root", 1⟩,
           ⟨"m1:m1:root.5", "Next steps", some "m1:root", 1⟩],
         (create_mindmap ⟨none, true, RemoteOutcome.exn⟩ "Plan a trip"
           initMindmapState).2) :=
  ⟨by decide, by rfl,
   C1_expand_idempotent ⟨none, true, RemoteOutcome.exn⟩ ⟨some "k", false, RemoteOutcome.exn⟩
     1 "m1:root"
     (create_mindmap ⟨none, true, RemoteOutcome.exn⟩ "Plan a trip" initMindmapState).2
     (create_mindmap ⟨none, true, RemoteOutcome.exn⟩ "Plan a trip" initMindmapState).2
     [⟨"m1:m1:root.1", "What is Plan a trip?", some "m1:root", 1⟩,
      ⟨"m1:m1:root.2", "Key components", some "m1:root", 1⟩,
      ⟨"m1:m1:root.3", "Examples", some "m1:root", 1⟩,
      ⟨"m1:m1:root.4", "Risks & constraints", some "m1:root", 1⟩,
      ⟨"m1:m1:root.5", "Next steps", some "m1:root", 1⟩]
     (by decide) (by rfl)⟩


/-! ### Claim C6 -/

theorem create_nodes_pairwise (env : RemoteEnv) (prompt : String) (m : Nat) :
    List.Pairwise (fun a b : MindmapNode => a.id ≠ b.id)
      ((⟨_new_node_id m none 0, pyStrip prompt, none, 0⟩ : MindmapNode) ::
        createChildren env m (_new_node_id m none 0) prompt) := by
  rw [List.pairwise_cons]
  refine ⟨?_, createChildren_pairwise env m _ prompt⟩
  intro n hn he
  rcases (createChildren_mem hn).2.2 with ⟨i, _, _, hid⟩
  rw [hid] at he
  exact _new_node_id_none_ne_some m 0 i _ he

theorem create_insertAll_eq (env : RemoteEnv) (prompt : String) (m : Nat) :
    insertAll []
      ((⟨_new_node_id m none 0, pyStrip prompt, none, 0⟩ : MindmapNode) ::
        createChildren env m (_new_node_id m none 0) prompt)
    = ((⟨_new_node_id m none 0, pyStrip prompt, none, 0⟩ : MindmapNode) ::
        createChildren env m (_new_node_id m none 0) prompt).map (fun n => (n.id, n)) :=
  insertAll_fresh _ [] (fun _ _ => rfl) (create_nodes_pairwise env prompt m)

/-- C6: `create_mindmap` allocates a fresh map id, builds the root from the
trimmed prompt at depth 0 with no parent, builds one child per generated
label at depth 1 under the root with sibling indices 1..N, stores all the
nodes, and returns them; with no credential configured the stored root has
exactly five children. -/
theorem C6_create_postcondition (env : RemoteEnv) (prompt : String) (s : MindmapState)
    (hwf : WFm s = true) :
    (create_mindmap env prompt s).1.map_id = s.next_map_id ∧
    alistLookup s.mindmaps s.next_map_id = none ∧
    (create_mindmap env prompt s).1.root_id = _new_node_id s.next_map_id none 0 ∧
    (create_mindmap env prompt s).1.nodes
      = ⟨_new_node_id s.next_map_id none 0, pyStrip prompt, none, 0⟩
        :: createChildren env s.next_map_id (_new_node_id s.next_map_id none 0) prompt ∧
    (createChildren env s.next_map_id (_new_node_id s.next_map_id none 0) prompt).length
      = (_ai_expand_idea env prompt 0).length ∧
    (∀ i : Nat,
      (createChildren env s.next_map_id (_new_node_id s.next_map_id none 0) prompt)[i]?
      = ((_ai_expand_idea env prompt 0)[i]?).map (fun label =>
          ⟨_new_node_id s.next_map_id (some (_new_node_id s.next_map_id none 0)) (i + 1),
           label, some (_new_node_id s.next_map_id none 0), 1⟩)) ∧
    alistLookup (create_mindmap env prompt s).2.mindmaps s.next_map_id
      = some ⟨s.next_map_id, _new_node_id s.next_map_id none 0,
          ((create_mindmap env prompt s).1.nodes).map (fun n => (n.id, n))⟩ ∧
    existingChildren ⟨s.next_map_id, _new_node_id s.next_map_id none 0,
        ((create_mindmap env prompt s).1.nodes).map (fun n => (n.id, n))⟩
      (_new_node_id s.next_map_id none 0)
      = createChildren env s.next_map_id (_new_node_id s.next_map_id none 0) prompt ∧
    (env.apiKey = none →
      (createChildren env s.next_map_id
        (_new_node_id s.next_map_id none 0) prompt).length = 5) := by
  refine ⟨rfl, ?_, rfl, rfl, ?_, ?_, ?_, ?_, ?_⟩
  · exact alistLookup_none_iff.2 (hasKey_next_false hwf)
  · rw [createChildren, List.length_map, enumerate1_length]
  · intro i
    rw [createChildren, List.getElem?_map, enumerate1_getElem?]
    rcases h : (_ai_expand_idea env prompt 0)[i]? with _ | lab
    · rfl
    · simp [Nat.add_comm 1 i]
  · rw [create_mindmap_eq]
    show alistLookup (dictInsert s.mindmaps s.next_map_id _) s.next_map_id = _
    rw [alistLookup_dictInsert_self, create_insertAll_eq]
  · have hnodes : (create_mindmap env prompt s).1.nodes
        = (⟨_new_node_id s.next_map_id none 0, pyStrip prompt, none, 0⟩ : MindmapNode) ::
          createChildren env s.next_map_id (_new_node_id s.next_map_id none 0) prompt :=
      rfl
    rw [hnodes, existingChildren]
    show ((((⟨_new_node_id s.next_map_id none 0, pyStrip prompt, none, 0⟩ : MindmapNode) ::
        createChildren env s.next_map_id (_new_node_id s.next_map_id none 0) prompt).map
          (fun n => (n.id, n))).map Prod.snd).filter _ = _
    rw [map_snd_pair, List.filter_cons]
    rw [if_neg (by simp)]
    rw [List.filter_eq_self]
    intro n hn
    rw [decide_eq_true_eq]
    exact (createChildren_mem hn).1
  · intro henv
    rw [createChildren, List.length_map, enumerate1_length]
    rw [show _ai_expand_idea env prompt 0 = _fallback_expand prompt 0 from
      by rw [_ai_expand_idea, henv]]
    exact _fallback_expand_length prompt 0

theorem C6_witness :
    WFm initMindmapState = true ∧
    ((create_mindmap ⟨none, true, RemoteOutcome.exn⟩ "Plan a trip"
        initMindmapState).1.map_id = initMindmapState.next_map_id ∧
     alistLookup initMindmapState.mindmaps initMindmapState.next_map_id = none ∧
     (create_mindmap ⟨none, true, RemoteOutcome.exn⟩ "Plan a trip"
        initMindmapState).1.root_id
       = _new_node_id initMindmapState.next_map_id none 0 ∧
     (create_mindmap ⟨none, true, RemoteOutcome.exn⟩ "Plan a trip"
        initMindmapState).1.nodes
       = ⟨_new_node_id initMindmapState.next_map_id none 0, pyStrip "Plan a trip",
          none, 0⟩
         :: createChildren ⟨none, true, RemoteOutcome.exn⟩ initMindmapState.next_map_id
              (_new_node_id initMindmapState.next_map_id none 0) "Plan a trip" ∧
     (createChildren ⟨none, true, RemoteOutcome.exn⟩ initMindmapState.next_map_id
        (_new_node_id initMindmapState.next_map_id none 0) "Plan a trip").length
       = (_ai_expand_idea ⟨none, true, RemoteOutcome.exn⟩ "Plan a trip" 0).length ∧
     (∀ i : Nat,
       (createChildren ⟨none, true, RemoteOutcome.exn⟩ initMindmapState.next_map_id
          (_new_node_id initMindmapState.next_map_id none 0) "Plan a trip")[i]?
       = ((_ai_expand_idea ⟨none, true, RemoteOutcome.exn⟩ "Plan a trip" 0)[i]?).map
           (fun label =>
             ⟨_new_node_id initMindmapState.next_map_id
                (some (_new_node_id initMindmapState.next_map_id none 0)) (i + 1),
              label, some (_new_node_id initMindmapState.next_map_id none 0), 1⟩)) ∧
     alistLookup (create_mindmap ⟨none, true, RemoteOutcome.exn⟩ "Plan a trip"
         initMindmapState).2.mindmaps initMindmapState.next_map_id
       = some ⟨initMindmapState.next_map_id,
           _new_node_id initMindmapState.next_map_id none 0,
           ((create_mindmap ⟨none, true, RemoteOutcome.exn⟩ "Plan a trip"
              initMindmapState).1.nodes).map (fun n => (n.id, n))⟩ ∧
     existingChildren ⟨initMindmapState.next_map_id,
         _new_node_id initMindmapState.next_map_id none 0,
         ((create_mindmap ⟨none, true, RemoteOutcome.exn⟩ "Plan a trip"
            initMindmapState).1.nodes).map (fun n => (n.id, n))⟩
       (_new_node_id initMindmapState.next_map_id none 0)
       = createChildren ⟨none, true, RemoteOutcome.exn⟩ initMindmapState.next_map_id
           (_new_node_id initMindmapState.next_map_id none 0) "Plan a trip" ∧
     ((⟨none, true, RemoteOutcome.exn⟩ : RemoteEnv).apiKey = none →
       (createChildren ⟨none, true, RemoteOutcome.exn⟩ initMindmapState.next_map_id
         (_new_node_id initMindmapState.next_map_id none 0) "Plan a trip").length = 5)) :=
  ⟨by decide,
   C6_create_postcondition ⟨none, true, RemoteOutcome.exn⟩ "Plan a trip"
     initMindmapState (by decide)⟩


end DemoSite
